import Mathlib

/-!
Verification of the expression graph evaluator
(`src/polynomial/graph_evaluator.rs`): a two-phase compiler/interpreter that
compiles an expression tree into a deduplicated linear list of primitive
calculations and then evaluates that list row by row against externally
supplied column and challenge data.

The Rust source is embedded shallowly: the mutable compiler object becomes
explicit state passing, fallible evaluation becomes `Except`, and the one
genuinely partial operation (`rem_euclid` with a zero modulus, a division by
zero in Rust) becomes `Option`.
-/

set_option maxHeartbeats 1000000
set_option linter.unusedSectionVars false
set_option linter.deprecated false

/-- Typed evaluation errors surfaced by the row evaluator. The error enum is
defined outside the provided source (`plonk/eval.rs`); its constructors and
payloads are taken from their uses in `graph_evaluator.rs` and from spec
section 7. -/
inductive EvalError where
  | ColumnVariableIndexOutOfBoundary : Nat → EvalError
  | RowIndexOutOfBoundary : Nat → EvalError
  | ChallengeIndexOutOfBoundary : Nat → Nat → EvalError
deriving DecidableEq

instance {ε α : Type} [DecidableEq ε] [DecidableEq α] : DecidableEq (Except ε α) := fun a b =>
  match a, b with
  | .error e, .error f => decidable_of_iff (e = f) (by simp)
  | .error _, .ok _ => .isFalse fun h => Except.noConfusion h
  | .ok _, .error _ => .isFalse fun h => Except.noConfusion h
  | .ok x, .ok y => decidable_of_iff (x = y) (by simp)

/-- Value used in a calculation (`ValueSource` in `graph_evaluator.rs`).
`Fixed` and `Poly` carry a column index and an index into the resolved
rotation table. -/
inductive ValueSource where
  | Constant : Nat → ValueSource
  | Intermediate : Nat → ValueSource
  | Fixed : Nat → Nat → ValueSource
  | Poly : Nat → Nat → ValueSource
  | Challenge : Nat → ValueSource
deriving DecidableEq

/-- Discriminant of a `ValueSource` variant, in declaration order, as compared
first by the Rust `derive(PartialOrd)`. -/
def ValueSource.tag : ValueSource → Nat
  | .Constant _ => 0
  | .Intermediate _ => 1
  | .Fixed _ _ => 2
  | .Poly _ _ => 3
  | .Challenge _ => 4

/-- The derived order on `ValueSource` (Rust `derive(PartialOrd)`): variants
compare by declaration order first, fields left to right within a variant. -/
def vsLe : ValueSource → ValueSource → Bool
  | .Constant i, .Constant j => decide (i ≤ j)
  | .Intermediate i, .Intermediate j => decide (i ≤ j)
  | .Fixed i r, .Fixed j s => decide (i < j ∨ (i = j ∧ r ≤ s))
  | .Poly i r, .Poly j s => decide (i < j ∨ (i = j ∧ r ≤ s))
  | .Challenge i, .Challenge j => decide (i ≤ j)
  | a, b => decide (a.tag ≤ b.tag)

/-- One primitive instruction (`Calculation` in `graph_evaluator.rs`). -/
inductive Calculation where
  | Add : ValueSource → ValueSource → Calculation
  | Sub : ValueSource → ValueSource → Calculation
  | Mul : ValueSource → ValueSource → Calculation
  | Square : ValueSource → Calculation
  | Double : ValueSource → Calculation
  | Negate : ValueSource → Calculation
  | Horner : ValueSource → List ValueSource → ValueSource → Calculation
  | Store : ValueSource → Calculation
deriving DecidableEq

/-- The value references an instruction reads. -/
def Calculation.operands : Calculation → List ValueSource
  | .Add a b => [a, b]
  | .Sub a b => [a, b]
  | .Mul a b => [a, b]
  | .Square a => [a]
  | .Double a => [a]
  | .Negate a => [a]
  | .Horner s ps f => s :: f :: ps
  | .Store a => [a]

def Calculation.isHorner : Calculation → Bool
  | .Horner _ _ _ => true
  | _ => false

def Calculation.isDouble : Calculation → Bool
  | .Double _ => true
  | _ => false

def Calculation.isMul : Calculation → Bool
  | .Mul _ _ => true
  | _ => false

/-- A column query: column index plus signed rotation offset. The `Query` type
is defined outside the provided source; fields taken from its uses in
`graph_evaluator.rs` (`query.index`, `query.rotation`) and spec section 3. -/
structure Query where
  index : Nat
  rotation : Int
deriving DecidableEq

/-- Modelled from the spec: the expression tree (spec section 3), whose
defining module is outside the provided source; the constructors are exactly
the ones matched by `GraphEvaluator::add_expression` and built by the tests in
`graph_evaluator.rs`. -/
inductive Expression (F : Type) where
  | Constant : F → Expression F
  | Polynomial : Query → Expression F
  | Challenge : Nat → Expression F
  | Negated : Expression F → Expression F
  | Sum : Expression F → Expression F → Expression F
  | Product : Expression F → Expression F → Expression F
  | Scaled : Expression F → F → Expression F

/-- Modelled from the spec: the external data collaborator (spec section 6),
whose trait (`GetDataForEval`) is defined outside the provided source. It
exposes the challenge sequence, the fixed columns, a fallible advice/witness
cell lookup (which owns any selector composition), and the table row count. -/
structure GetDataForEval (F : Type) where
  challenges : List F
  fixed : List (List F)
  eval_column_var : Nat → Nat → Except EvalError F
  row_size : Nat

/-- An instruction together with its intermediate target slot
(`CalculationInfo` in `graph_evaluator.rs`). -/
structure CalculationInfo where
  calculation : Calculation
  target : Nat
deriving DecidableEq

/-- The compiled graph (`GraphEvaluator` in `graph_evaluator.rs`). -/
structure GraphEvaluator (F : Type) where
  constants : List F
  rotations : List Int
  num_intermediates : Nat
  calculations : List CalculationInfo

/-- The total rotation arithmetic of `get_rotation_idx`: Euclidean remainder
of `idx + rot` by the row count. The Rust `usize`/`i32` casts are embedded as
exact integers. -/
def rotIdx (idx : Nat) (rot : Int) (num_row : Nat) : Nat :=
  (((idx : Int) + rot).emod (num_row : Int)).toNat

/-- `get_rotation_idx` from `graph_evaluator.rs`. `rem_euclid` with modulus 0
is a division by zero (a panic) in Rust, modelled here as `none`. -/
def get_rotation_idx (idx : Nat) (rot : Int) (num_row : Nat) : Option Nat :=
  if num_row = 0 then none else some (rotIdx idx rot num_row)

variable {F : Type} [CommRing F] [DecidableEq F]

/-- The operand resolution closure `get_value` inside `Calculation::evaluate`.
The Rust code indexes `constants`, `intermediates` and `rotations` directly
(panicking if out of bounds); those reads are embedded with `List.getD` whose
default is unreachable on compiled graphs (see the def-before-use invariant
theorems below). -/
def getValue (rotations : List Nat) (constants : List F) (intermediates : List F)
    (getter : GetDataForEval F) : ValueSource → Except EvalError F
  | .Constant id => .ok (constants.getD id 0)
  | .Intermediate id => .ok (intermediates.getD id 0)
  | .Fixed index rotation =>
    match getter.fixed.get? index with
    | none => .error (.ColumnVariableIndexOutOfBoundary index)
    | some column =>
      match column.get? (rotations.getD rotation 0) with
      | none => .error (.RowIndexOutOfBoundary (rotations.getD rotation 0))
      | some v => .ok v
  | .Poly index rotation => getter.eval_column_var (rotations.getD rotation 0) index
  | .Challenge index =>
    match getter.challenges.get? index with
    | none => .error (.ChallengeIndexOutOfBoundary index getter.challenges.length)
    | some v => .ok v

/-- The fold inside the `Horner` arm of `Calculation::evaluate`:
`value = value * factor + part` over the parts, left to right. -/
def hornerLoop (gv : ValueSource → Except EvalError F) (factor : F) :
    List ValueSource → F → Except EvalError F
  | [], value => .ok value
  | part :: rest, value =>
    match gv part with
    | .error e => .error e
    | .ok pv => hornerLoop gv factor rest (value * factor + pv)

/-- `Calculation::evaluate` from `graph_evaluator.rs`: get the resulting value
of this calculation. Operand errors propagate left to right as with `?`. -/
def Calculation.evaluate (rotations : List Nat) (constants : List F)
    (intermediates : List F) (getter : GetDataForEval F) :
    Calculation → Except EvalError F
  | .Add a b =>
    match getValue rotations constants intermediates getter a with
    | .error e => .error e
    | .ok x =>
      match getValue rotations constants intermediates getter b with
      | .error e => .error e
      | .ok y => .ok (x + y)
  | .Sub a b =>
    match getValue rotations constants intermediates getter a with
    | .error e => .error e
    | .ok x =>
      match getValue rotations constants intermediates getter b with
      | .error e => .error e
      | .ok y => .ok (x - y)
  | .Mul a b =>
    match getValue rotations constants intermediates getter a with
    | .error e => .error e
    | .ok x =>
      match getValue rotations constants intermediates getter b with
      | .error e => .error e
      | .ok y => .ok (x * y)
  | .Square a =>
    match getValue rotations constants intermediates getter a with
    | .error e => .error e
    | .ok x => .ok (x * x)
  | .Double a =>
    match getValue rotations constants intermediates getter a with
    | .error e => .error e
    | .ok x => .ok (x + x)
  | .Negate a =>
    match getValue rotations constants intermediates getter a with
    | .error e => .error e
    | .ok x => .ok (-x)
  | .Horner start_value parts factor =>
    match getValue rotations constants intermediates getter factor with
    | .error e => .error e
    | .ok fv =>
      match getValue rotations constants intermediates getter start_value with
      | .error e => .error e
      | .ok sv => hornerLoop (getValue rotations constants intermediates getter) fv parts sv
  | .Store a => getValue rotations constants intermediates getter a

/-- `iter().position(|&c| c == x)`: index of the first occurrence. -/
def listPosition {α : Type} [DecidableEq α] (x : α) : List α → Option Nat
  | [] => none
  | y :: ys => if y = x then some 0 else (listPosition x ys).map (· + 1)

/-- `iter().find(|c| c.calculation == calculation)`: first matching entry. -/
def findCalculation (c : Calculation) : List CalculationInfo → Option CalculationInfo
  | [] => none
  | ci :: rest => if ci.calculation = c then some ci else findCalculation c rest

/-- `GraphEvaluator::default()`: empty graph with the constant pool pre-seeded
with zero, one and two. -/
def GraphEvaluator.empty : GraphEvaluator F :=
  { constants := [0, 1, 2]
    rotations := []
    num_intermediates := 0
    calculations := [] }

/-- `GraphEvaluator::add_rotation`: index of the rotation, deduplicated. -/
def GraphEvaluator.add_rotation (g : GraphEvaluator F) (rotation : Int) :
    GraphEvaluator F × Nat :=
  match listPosition rotation g.rotations with
  | some index => (g, index)
  | none => ({ g with rotations := g.rotations ++ [rotation] }, g.rotations.length)

/-- `GraphEvaluator::add_constant`: constant pool reference, deduplicated. -/
def GraphEvaluator.add_constant (g : GraphEvaluator F) (constant : F) :
    GraphEvaluator F × ValueSource :=
  match listPosition constant g.constants with
  | some index => (g, .Constant index)
  | none => ({ g with constants := g.constants ++ [constant] }, .Constant g.constants.length)

/-- `GraphEvaluator::add_calculation`: if an equal calculation already exists,
reuse its target slot; otherwise append it with the next fresh slot. -/
def GraphEvaluator.add_calculation (g : GraphEvaluator F) (calculation : Calculation) :
    GraphEvaluator F × ValueSource :=
  match findCalculation calculation g.calculations with
  | some existing => (g, .Intermediate existing.target)
  | none =>
    ({ g with
        calculations := g.calculations ++ [⟨calculation, g.num_intermediates⟩]
        num_intermediates := g.num_intermediates + 1 },
      .Intermediate g.num_intermediates)

/-- The general `Sum` arm of `add_expression`: add instruction with operands
in the canonical order given by the derived `PartialOrd`. -/
def sumArm (g : GraphEvaluator F) (a b : ValueSource) : GraphEvaluator F × ValueSource :=
  if vsLe a b then g.add_calculation (.Add a b) else g.add_calculation (.Add b a)

/-- The `Product` arm of `add_expression` once both operands are compiled:
zero/one/two shortcuts, squaring, then canonical multiply. -/
def productArm (g : GraphEvaluator F) (a b : ValueSource) : GraphEvaluator F × ValueSource :=
  if a = .Constant 0 ∨ b = .Constant 0 then (g, .Constant 0)
  else if a = .Constant 1 then (g, b)
  else if b = .Constant 1 then (g, a)
  else if a = .Constant 2 then g.add_calculation (.Double b)
  else if b = .Constant 2 then g.add_calculation (.Double a)
  else if a = b then g.add_calculation (.Square a)
  else if vsLe a b then g.add_calculation (.Mul a b)
  else g.add_calculation (.Mul b a)

/-- `GraphEvaluator::add_expression`: recursive compilation of an expression
node into the graph, returning the compiled value reference. -/
def GraphEvaluator.add_expression : GraphEvaluator F → Expression F → GraphEvaluator F × ValueSource
  | g, .Constant scalar => g.add_constant scalar
  | g, .Polynomial query =>
    let p := g.add_rotation query.rotation
    p.1.add_calculation (.Store (.Poly query.index p.2))
  | g, .Challenge challenge_index => g.add_calculation (.Store (.Challenge challenge_index))
  | g, .Negated (.Constant scalar) => g.add_constant (-scalar)
  | g, .Negated a =>
    let p := g.add_expression a
    if p.2 = .Constant 0 then p else p.1.add_calculation (.Negate p.2)
  | g, .Sum a (.Negated b_int) =>
    let pa := g.add_expression a
    let pb := pa.1.add_expression b_int
    if pa.2 = .Constant 0 then pb.1.add_calculation (.Negate pb.2)
    else if pb.2 = .Constant 0 then (pb.1, pa.2)
    else pb.1.add_calculation (.Sub pa.2 pb.2)
  | g, .Sum a b =>
    let pa := g.add_expression a
    let pb := pa.1.add_expression b
    sumArm pb.1 pa.2 pb.2
  | g, .Product a b =>
    let pa := g.add_expression a
    let pb := pa.1.add_expression b
    productArm pb.1 pa.2 pb.2
  | g, .Scaled a f =>
    if f = 0 then (g, .Constant 0)
    else if f = 1 then g.add_expression a
    else
      let pc := g.add_constant f
      let pa := pc.1.add_expression a
      pa.1.add_calculation (.Mul pa.2 pc.2)

/-- `GraphEvaluator::new`: compile the whole expression, then store its
resulting value reference as one final calculation. -/
def GraphEvaluator.new (expr : Expression F) : GraphEvaluator F :=
  let p := (GraphEvaluator.empty (F := F)).add_expression expr
  (p.1.add_calculation (.Store p.2)).1

/-- The rotation-resolution loop at the top of `GraphEvaluator::evaluate`;
`none` models the division-by-zero panic of `get_rotation_idx`. -/
def resolveRotations (row_index num_row : Nat) : List Int → Option (List Nat)
  | [] => some []
  | rot :: rest =>
    match get_rotation_idx row_index rot num_row with
    | none => none
    | some k =>
      match resolveRotations row_index num_row rest with
      | none => none
      | some ks => some (k :: ks)

/-- The main loop of `GraphEvaluator::evaluate`: run every calculation in list
order, writing each result into its target slot of the intermediates buffer. -/
def runCalcs (rotations : List Nat) (constants : List F) (getter : GetDataForEval F) :
    List CalculationInfo → List F → Except EvalError (List F)
  | [], intermediates => .ok intermediates
  | ci :: rest, intermediates =>
    match ci.calculation.evaluate rotations constants intermediates getter with
    | .error e => .error e
    | .ok v => runCalcs rotations constants getter rest (intermediates.set ci.target v)

/-- `GraphEvaluator::evaluate`: resolve the rotations, run all calculations
into a fresh zero-initialised buffer, and return the last calculation's slot
(or zero if the graph holds no calculations). The outer `Option` is `none`
exactly when rotation resolution divides by zero. -/
def GraphEvaluator.evaluate (g : GraphEvaluator F) (getter : GetDataForEval F)
    (row_index : Nat) : Option (Except EvalError F) :=
  match resolveRotations row_index getter.row_size g.rotations with
  | none => none
  | some rotations =>
    some
      (match runCalcs rotations g.constants getter g.calculations
          (List.replicate g.num_intermediates 0) with
        | .error e => .error e
        | .ok intermediates =>
          match g.calculations.getLast? with
          | some last => .ok (intermediates.getD last.target 0)
          | none => .ok 0)

/-- Number of multiply instructions in the compiled graph. -/
def GraphEvaluator.countMul (g : GraphEvaluator F) : Nat :=
  (g.calculations.filter fun ci => ci.calculation.isMul).length

/-- The spec side of the refinement claims: direct recursive evaluation of the
expression tree at one row (spec sections 1 and 8), resolving each column
query through the collaborator at the Euclidean-wrapped row. -/
def Expression.directEval (getter : GetDataForEval F) (row_index : Nat) :
    Expression F → Except EvalError F
  | .Constant c => .ok c
  | .Polynomial q => getter.eval_column_var (rotIdx row_index q.rotation getter.row_size) q.index
  | .Challenge i =>
    match getter.challenges.get? i with
    | none => .error (.ChallengeIndexOutOfBoundary i getter.challenges.length)
    | some c => .ok c
  | .Negated a =>
    match a.directEval getter row_index with
    | .error e => .error e
    | .ok x => .ok (-x)
  | .Sum a b =>
    match a.directEval getter row_index with
    | .error e => .error e
    | .ok x =>
      match b.directEval getter row_index with
      | .error e => .error e
      | .ok y => .ok (x + y)
  | .Product a b =>
    match a.directEval getter row_index with
    | .error e => .error e
    | .ok x =>
      match b.directEval getter row_index with
      | .error e => .error e
      | .ok y => .ok (x * y)
  | .Scaled a f =>
    match a.directEval getter row_index with
    | .error e => .error e
    | .ok x => .ok (x * f)

/-- Number of tree nodes, i.e. the number of nodes a naive tree walk visits. -/
def Expression.size : Expression F → Nat
  | .Constant _ => 1
  | .Polynomial _ => 1
  | .Challenge _ => 1
  | .Negated a => a.size + 1
  | .Sum a b => a.size + b.size + 1
  | .Product a b => a.size + b.size + 1
  | .Scaled a _ => a.size + 1

/-- Strict upper bound on the challenge indices referenced by an expression. -/
def Expression.maxCh : Expression F → Nat
  | .Constant _ => 0
  | .Polynomial _ => 0
  | .Challenge i => i + 1
  | .Negated a => a.maxCh
  | .Sum a b => max a.maxCh b.maxCh
  | .Product a b => max a.maxCh b.maxCh
  | .Scaled a _ => a.maxCh

/-- Whether the root of the expression is a negation (the shape that triggers
subtraction recognition in the `Sum` arm). -/
def Expression.isNegated : Expression F → Bool
  | .Negated _ => true
  | _ => false

/-- The rotation table of a graph resolved at one row, assuming a positive row
count (the successful branch of `resolveRotations`). -/
def resolvedRotations (getter : GetDataForEval F) (row_index : Nat)
    (g : GraphEvaluator F) : List Nat :=
  g.rotations.map fun rot => rotIdx row_index rot getter.row_size

/-- In-bounds predicate for a value reference against pool sizes: constant
index below the pool size, intermediate slot below `ni`, rotation index below
the rotation table size. -/
def vsBounded (nc nr ni : Nat) : ValueSource → Prop
  | .Constant i => i < nc
  | .Intermediate j => j < ni
  | .Fixed _ r => r < nr
  | .Poly _ r => r < nr
  | .Challenge _ => True

/-- Structural invariant of compiler states: one intermediate slot per
calculation, the calculation at position `k` targets slot `k`, the pre-seeded
constants sit at pool slots 0, 1, 2, operands are def-before-use in bounds,
and no two calculations are equal. -/
structure GraphInv (g : GraphEvaluator F) : Prop where
  hlen : g.num_intermediates = g.calculations.length
  htargets : ∀ k ci, g.calculations.get? k = some ci → ci.target = k
  hc0 : g.constants.get? 0 = some 0
  hc1 : g.constants.get? 1 = some 1
  hc2 : g.constants.get? 2 = some 2
  hbound : ∀ k ci, g.calculations.get? k = some ci →
    ∀ vs ∈ ci.calculation.operands, vsBounded g.constants.length g.rotations.length k vs
  hnodup : g.calculations.Pairwise fun x y => x.calculation ≠ y.calculation

/-- Semantic invariant: `I` is the evaluation trace of the graph at one row,
i.e. every calculation, evaluated against the full trace, succeeds and yields
the entry of its own position. -/
def TraceInv (getter : GetDataForEval F) (row_index : Nat) (g : GraphEvaluator F)
    (I : List F) : Prop :=
  I.length = g.calculations.length ∧
  ∀ k ci, g.calculations.get? k = some ci →
    ci.calculation.evaluate (resolvedRotations getter row_index g) g.constants I getter =
      .ok (I.getD k 0)

/-- The three tables only ever grow, by appending at the end. -/
def Extends (g g' : GraphEvaluator F) : Prop :=
  (∃ d, g'.constants = g.constants ++ d) ∧
  (∃ d, g'.rotations = g.rotations ++ d) ∧
  (∃ d, g'.calculations = g.calculations ++ d)

/-- Soundness of one compilation step from state `g` with trace `I`: the state
only grows, invariants persist, and the returned value reference is in bounds
and denotes `v` in the extended trace. -/
def Sound (getter : GetDataForEval F) (row_index : Nat) (g : GraphEvaluator F)
    (I : List F) (p : GraphEvaluator F × ValueSource) (v : F) : Prop :=
  Extends g p.1 ∧ GraphInv p.1 ∧
  ∃ I', (∃ d, I' = I ++ d) ∧ TraceInv getter row_index p.1 I' ∧
    vsBounded p.1.constants.length p.1.rotations.length p.1.num_intermediates p.2 ∧
    getValue (resolvedRotations getter row_index p.1) p.1.constants I' getter p.2 = .ok v

/-- A collaborator on which every lookup succeeds, given enough challenges:
used to derive the purely structural facts about compiled graphs from the
soundness theorem. -/
def oracleGetter (n : Nat) : GetDataForEval F :=
  { challenges := List.replicate n 0
    fixed := []
    eval_column_var := fun _ _ => .ok 0
    row_size := 1 }

/-- `true` for the calculations the compiler's recursive walk may append: a
store instruction produced by `add_expression` only ever wraps a column or a
challenge reference (the top-level store added by `new` is the one exception). -/
def storeOnlyColumns : Calculation → Bool
  | .Store (.Poly _ _) => true
  | .Store (.Challenge _) => true
  | .Store _ => false
  | _ => true

/-- The concrete collaborator of the end-to-end scenario: two advice columns
and one fixed column of two rows each; column 0 of `eval_column_var` is the
fixed column, columns 1 and 2 the advice columns. -/
def scenarioGetter (a0 a1 b0 b1 f0 f1 : F) : GetDataForEval F :=
  { challenges := []
    fixed := [[f0, f1]]
    eval_column_var := fun row col =>
      match ([[f0, f1], [a0, a1], [b0, b1]] : List (List F)).get? col with
      | none => .error (.ColumnVariableIndexOutOfBoundary col)
      | some column =>
        match column.get? row with
        | none => .error (.RowIndexOutOfBoundary row)
        | some x => .ok x
    row_size := 2 }

/-- The end-to-end scenario expression
`(advice0 + advice1 + advice1) * (fixed0 + advice0)`, all at rotation 0. -/
def scenarioExpr : Expression F :=
  .Product
    (.Sum (.Sum (.Polynomial ⟨1, 0⟩) (.Polynomial ⟨2, 0⟩)) (.Polynomial ⟨2, 0⟩))
    (.Sum (.Polynomial ⟨0, 0⟩) (.Polynomial ⟨1, 0⟩))

/-- Purely structural facts about one compilation step from state `g`: the
state only grows, the returned reference is a constant or an intermediate, at
most one calculation is appended per tree node, and every appended calculation
is neither a Horner instruction nor a store of anything but a column or
challenge reference. -/
def StaticFacts (g : GraphEvaluator F) (e : Expression F) : Prop :=
  Extends g (g.add_expression e).1 ∧
  ((∃ i, (g.add_expression e).2 = .Constant i) ∨
    ∃ t, (g.add_expression e).2 = .Intermediate t) ∧
  (g.add_expression e).1.calculations.length ≤ g.calculations.length + e.size ∧
  ∀ ci ∈ (g.add_expression e).1.calculations, ci ∈ g.calculations ∨
    (storeOnlyColumns ci.calculation = true ∧ ci.calculation.isHorner = false)

theorem getD_of_get? {α : Type} {l : List α} {i : Nat} {x : α} (d : α)
    (h : l.get? i = some x) : l.getD i d = x := by
  rw [List.getD_eq_getElem?_getD, ← List.get?_eq_getElem?, h]; rfl

theorem getD_of_le {α : Type} {l : List α} {i : Nat} (d : α) (h : l.length ≤ i) :
    l.getD i d = d := by
  rw [List.getD_eq_getElem?_getD, ← List.get?_eq_getElem?, List.get?_eq_none.mpr h]; rfl

theorem lt_of_get?_eq_some {α : Type} {l : List α} {i : Nat} {x : α}
    (h : l.get? i = some x) : i < l.length := by
  by_contra hc
  rw [List.get?_eq_none.mpr (le_of_not_lt hc)] at h
  exact Option.noConfusion h

theorem getD_append_left {α : Type} {l : List α} (t : List α) {i : Nat} (d : α)
    (h : i < l.length) : (l ++ t).getD i d = l.getD i d := by
  obtain ⟨x, hx⟩ : ∃ x, l.get? i = some x := ⟨_, List.get?_eq_get h⟩
  rw [getD_of_get? d hx, getD_of_get? d (by rw [List.get?_append h, hx])]

theorem getD_append_right {α : Type} {l t : List α} {i : Nat} (d : α)
    (h : l.length ≤ i) : (l ++ t).getD i d = t.getD (i - l.length) d := by
  rw [List.getD_eq_getElem?_getD, List.getD_eq_getElem?_getD, ← List.get?_eq_getElem?,
    ← List.get?_eq_getElem?, List.get?_append_right h]

theorem getD_replicate_zero (m i : Nat) : (List.replicate m (0:F)).getD i 0 = 0 := by
  rcases lt_or_le i m with h | h
  · exact getD_of_get? 0 (by rw [List.get?_eq_getElem?, List.getElem?_replicate, if_pos h])
  · exact getD_of_le 0 (by simpa using h)

theorem getD_append_zeros (l : List F) (m i : Nat) :
    (l ++ List.replicate m (0:F)).getD i 0 = l.getD i 0 := by
  rcases lt_or_le i l.length with h | h
  · exact getD_append_left _ 0 h
  · rw [getD_append_right 0 h, getD_replicate_zero, getD_of_le 0 h]

theorem getD_take {α : Type} {l : List α} {k i : Nat} (d : α) (h : i < k) :
    (l.take k).getD i d = l.getD i d := by
  rw [List.getD_eq_getElem?_getD, List.getD_eq_getElem?_getD, List.getElem?_take, if_pos h]

theorem set_append_cons {α : Type} (l t : List α) (x w : α) :
    (l ++ x :: t).set l.length w = l ++ w :: t := by
  induction l with
  | nil => rfl
  | cons y ys ih => simp [List.set, ih]

theorem listPosition_get? {α : Type} [DecidableEq α] {x : α} :
    ∀ {l : List α} {i : Nat}, listPosition x l = some i → l.get? i = some x := by
  intro l
  induction l with
  | nil => intro i h; simp [listPosition] at h
  | cons y ys ih =>
    intro i h
    by_cases hy : y = x
    · rw [listPosition, if_pos hy] at h
      cases h
      simpa using hy
    · rw [listPosition, if_neg hy] at h
      obtain ⟨j, hj, rfl⟩ := Option.map_eq_some'.mp h
      simpa using ih hj

theorem listPosition_lt {α : Type} [DecidableEq α] {x : α} {l : List α} {i : Nat}
    (h : listPosition x l = some i) : i < l.length :=
  lt_of_get?_eq_some (listPosition_get? h)

theorem listPosition_append_some {α : Type} [DecidableEq α] {x : α} {i : Nat} :
    ∀ {l : List α} (t : List α), listPosition x l = some i → listPosition x (l ++ t) = some i := by
  intro l
  induction l generalizing i with
  | nil => intro t h; simp [listPosition] at h
  | cons y ys ih =>
    intro t h
    by_cases hy : y = x
    · rw [listPosition, if_pos hy] at h
      cases h
      rw [List.cons_append, listPosition, if_pos hy]
    · rw [listPosition, if_neg hy] at h
      obtain ⟨j, hj, rfl⟩ := Option.map_eq_some'.mp h
      rw [List.cons_append, listPosition, if_neg hy, ih t hj]
      rfl

theorem listPosition_append_self {α : Type} [DecidableEq α] {x : α} :
    ∀ {l : List α}, listPosition x l = none → listPosition x (l ++ [x]) = some l.length := by
  intro l
  induction l with
  | nil => intro _; simp [listPosition]
  | cons y ys ih =>
    intro h
    rw [listPosition] at h
    by_cases hy : y = x
    · rw [if_pos hy] at h; exact Option.noConfusion h
    · rw [if_neg hy] at h
      rw [List.cons_append, listPosition, if_neg hy, ih (Option.map_eq_none'.mp h)]
      rfl

theorem findCalculation_some {c : Calculation} :
    ∀ {l : List CalculationInfo} {ci : CalculationInfo},
      findCalculation c l = some ci → ci ∈ l ∧ ci.calculation = c := by
  intro l
  induction l with
  | nil => intro ci h; simp [findCalculation] at h
  | cons d ds ih =>
    intro ci h
    rw [findCalculation] at h
    by_cases hd : d.calculation = c
    · rw [if_pos hd] at h
      cases h
      exact ⟨List.mem_cons_self _ _, hd⟩
    · rw [if_neg hd] at h
      exact ⟨List.mem_cons_of_mem _ (ih h).1, (ih h).2⟩

theorem findCalculation_none {c : Calculation} :
    ∀ {l : List CalculationInfo}, findCalculation c l = none →
      ∀ ci ∈ l, ci.calculation ≠ c := by
  intro l
  induction l with
  | nil => intro _ ci h; simp at h
  | cons d ds ih =>
    intro h ci hci
    rw [findCalculation] at h
    by_cases hd : d.calculation = c
    · rw [if_pos hd] at h; exact Option.noConfusion h
    · rw [if_neg hd] at h
      rcases List.mem_cons.mp hci with rfl | hm
      · exact hd
      · exact ih h ci hm

theorem findCalculation_append_some {c : Calculation} :
    ∀ {l : List CalculationInfo} (t : List CalculationInfo) {ci : CalculationInfo},
      findCalculation c l = some ci → findCalculation c (l ++ t) = some ci := by
  intro l
  induction l with
  | nil => intro t ci h; simp [findCalculation] at h
  | cons d ds ih =>
    intro t ci h
    rw [findCalculation] at h
    rw [List.cons_append, findCalculation]
    by_cases hd : d.calculation = c
    · rw [if_pos hd] at h ⊢; exact h
    · rw [if_neg hd] at h ⊢; exact ih t h

theorem findCalculation_append_self {c : Calculation} :
    ∀ {l : List CalculationInfo}, findCalculation c l = none →
      ∀ t : Nat, findCalculation c (l ++ [⟨c, t⟩]) = some ⟨c, t⟩ := by
  intro l
  induction l with
  | nil => intro _ t; simp [findCalculation]
  | cons d ds ih =>
    intro h t
    rw [findCalculation] at h
    by_cases hd : d.calculation = c
    · rw [if_pos hd] at h; exact Option.noConfusion h
    · rw [if_neg hd] at h
      rw [List.cons_append, findCalculation, if_neg hd, ih h t]

theorem vsLe_refl (a : ValueSource) : vsLe a a = true := by
  cases a <;> simp [vsLe]

theorem vsLe_total (a b : ValueSource) : vsLe a b = true ∨ vsLe b a = true := by
  cases a <;> cases b <;> simp [vsLe, ValueSource.tag] <;> omega

theorem vsLe_antisymm {a b : ValueSource} (h1 : vsLe a b = true) (h2 : vsLe b a = true) :
    a = b := by
  cases a <;> cases b <;> simp_all [vsLe, ValueSource.tag] <;> omega

theorem append_nil_ext {α : Type} {l l' : List α} (h : l' = l) : ∃ d, l' = l ++ d :=
  ⟨[], by rw [h, List.append_nil]⟩

theorem getValue_inter_congr (rot : List Nat) (con : List F) (getter : GetDataForEval F)
    {I I' : List F} (vs : ValueSource)
    (h : ∀ j, vs = .Intermediate j → I'.getD j 0 = I.getD j 0) :
    getValue rot con I' getter vs = getValue rot con I getter vs := by
  cases vs
  case Intermediate j => simp only [getValue]; rw [h j rfl]
  all_goals rfl

theorem getValue_extend {rot : List Nat} {con I : List F} (dr : List Nat) (dc dI : List F)
    (getter : GetDataForEval F) (vs : ValueSource)
    (hb : vsBounded con.length rot.length I.length vs) :
    getValue (rot ++ dr) (con ++ dc) (I ++ dI) getter vs = getValue rot con I getter vs := by
  cases vs with
  | Constant i =>
    simp only [vsBounded] at hb
    simp only [getValue]
    rw [getD_append_left _ _ hb]
  | Intermediate j =>
    simp only [vsBounded] at hb
    simp only [getValue]
    rw [getD_append_left _ _ hb]
  | Fixed idx r =>
    simp only [vsBounded] at hb
    simp only [getValue]
    rw [getD_append_left _ _ hb]
  | Poly idx r =>
    simp only [vsBounded] at hb
    simp only [getValue]
    rw [getD_append_left _ _ hb]
  | Challenge i => rfl

theorem hornerLoop_congr {gv gv' : ValueSource → Except EvalError F} (factor : F) :
    ∀ (ps : List ValueSource) (value : F), (∀ p ∈ ps, gv p = gv' p) →
      hornerLoop gv factor ps value = hornerLoop gv' factor ps value := by
  intro ps
  induction ps with
  | nil => intro value _; rfl
  | cons p rest ih =>
    intro value h
    simp only [hornerLoop]
    rw [h p (List.mem_cons_self _ _)]
    cases gv' p with
    | error e => rfl
    | ok pv => exact ih _ fun q hq => h q (List.mem_cons_of_mem _ hq)

theorem evaluate_congr {rot rot' : List Nat} {con con' I I' : List F}
    (getter : GetDataForEval F) (c : Calculation)
    (h : ∀ vs ∈ c.operands, getValue rot con I getter vs = getValue rot' con' I' getter vs) :
    c.evaluate rot con I getter = c.evaluate rot' con' I' getter := by
  cases c with
  | Add a b =>
    simp only [Calculation.evaluate]
    rw [h a (by simp [Calculation.operands]), h b (by simp [Calculation.operands])]
  | Sub a b =>
    simp only [Calculation.evaluate]
    rw [h a (by simp [Calculation.operands]), h b (by simp [Calculation.operands])]
  | Mul a b =>
    simp only [Calculation.evaluate]
    rw [h a (by simp [Calculation.operands]), h b (by simp [Calculation.operands])]
  | Square a =>
    simp only [Calculation.evaluate]
    rw [h a (by simp [Calculation.operands])]
  | Double a =>
    simp only [Calculation.evaluate]
    rw [h a (by simp [Calculation.operands])]
  | Negate a =>
    simp only [Calculation.evaluate]
    rw [h a (by simp [Calculation.operands])]
  | Horner s ps f =>
    simp only [Calculation.evaluate]
    rw [h f (by simp [Calculation.operands]), h s (by simp [Calculation.operands])]
    cases getValue rot' con' I' getter f with
    | error e => rfl
    | ok fv =>
      cases getValue rot' con' I' getter s with
      | error e => rfl
      | ok sv =>
        exact hornerLoop_congr fv ps sv fun p hp => h p (by simp [Calculation.operands, hp])
  | Store a =>
    simp only [Calculation.evaluate]
    rw [h a (by simp [Calculation.operands])]

theorem extends_refl (g : GraphEvaluator F) : Extends g g :=
  ⟨append_nil_ext rfl, append_nil_ext rfl, append_nil_ext rfl⟩

theorem extends_trans {g g' g'' : GraphEvaluator F} (h1 : Extends g g') (h2 : Extends g' g'') :
    Extends g g'' := by
  obtain ⟨⟨d1, hc1⟩, ⟨d2, hr1⟩, ⟨d3, hk1⟩⟩ := h1
  obtain ⟨⟨e1, hc2⟩, ⟨e2, hr2⟩, ⟨e3, hk2⟩⟩ := h2
  exact ⟨⟨d1 ++ e1, by rw [hc2, hc1, List.append_assoc]⟩,
    ⟨d2 ++ e2, by rw [hr2, hr1, List.append_assoc]⟩,
    ⟨d3 ++ e3, by rw [hk2, hk1, List.append_assoc]⟩⟩

theorem resolved_append (getter : GetDataForEval F) (row_index : Nat)
    {g g' : GraphEvaluator F} {d : List Int} (h : g'.rotations = g.rotations ++ d) :
    resolvedRotations getter row_index g' =
      resolvedRotations getter row_index g ++
        d.map fun rot => rotIdx row_index rot getter.row_size := by
  simp [resolvedRotations, h]

theorem resolved_length (getter : GetDataForEval F) (row_index : Nat) (g : GraphEvaluator F) :
    (resolvedRotations getter row_index g).length = g.rotations.length := by
  simp [resolvedRotations]

theorem vsBounded_mono {nc nr ni nc' nr' ni' : Nat} (hc : nc ≤ nc') (hr : nr ≤ nr')
    (hi : ni ≤ ni') {vs : ValueSource} (h : vsBounded nc nr ni vs) :
    vsBounded nc' nr' ni' vs := by
  cases vs <;> simp [vsBounded] at h ⊢ <;> omega

theorem add_constant_spec (g : GraphEvaluator F) (c : F) :
    (∃ d, (g.add_constant c).1.constants = g.constants ++ d) ∧
    (g.add_constant c).1.rotations = g.rotations ∧
    (g.add_constant c).1.calculations = g.calculations ∧
    (g.add_constant c).1.num_intermediates = g.num_intermediates ∧
    ∃ i, (g.add_constant c).2 = .Constant i ∧
      (g.add_constant c).1.constants.get? i = some c := by
  rcases h : listPosition c g.constants with _ | i
  · have heq : g.add_constant c =
        ({ g with constants := g.constants ++ [c] }, .Constant g.constants.length) := by
      simp only [GraphEvaluator.add_constant, h]
    rw [heq]
    exact ⟨⟨[c], rfl⟩, rfl, rfl, rfl, g.constants.length, rfl, List.get?_concat_length _ _⟩
  · have heq : g.add_constant c = (g, .Constant i) := by
      simp only [GraphEvaluator.add_constant, h]
    rw [heq]
    exact ⟨append_nil_ext rfl, rfl, rfl, rfl, i, rfl, listPosition_get? h⟩

theorem add_rotation_spec (g : GraphEvaluator F) (rot : Int) :
    (g.add_rotation rot).1.constants = g.constants ∧
    (∃ d, (g.add_rotation rot).1.rotations = g.rotations ++ d) ∧
    (g.add_rotation rot).1.calculations = g.calculations ∧
    (g.add_rotation rot).1.num_intermediates = g.num_intermediates ∧
    (g.add_rotation rot).1.rotations.get? (g.add_rotation rot).2 = some rot := by
  rcases h : listPosition rot g.rotations with _ | i
  · have heq : g.add_rotation rot =
        ({ g with rotations := g.rotations ++ [rot] }, g.rotations.length) := by
      simp only [GraphEvaluator.add_rotation, h]
    rw [heq]
    exact ⟨rfl, ⟨[rot], rfl⟩, rfl, rfl, List.get?_concat_length _ _⟩
  · have heq : g.add_rotation rot = (g, i) := by
      simp only [GraphEvaluator.add_rotation, h]
    rw [heq]
    exact ⟨rfl, append_nil_ext rfl, rfl, rfl, listPosition_get? h⟩

theorem add_calculation_cases (g : GraphEvaluator F) (c : Calculation) :
    (∃ ci, findCalculation c g.calculations = some ci ∧
      g.add_calculation c = (g, .Intermediate ci.target)) ∨
    (findCalculation c g.calculations = none ∧
      (g.add_calculation c).1.constants = g.constants ∧
      (g.add_calculation c).1.rotations = g.rotations ∧
      (g.add_calculation c).1.calculations = g.calculations ++ [⟨c, g.num_intermediates⟩] ∧
      (g.add_calculation c).1.num_intermediates = g.num_intermediates + 1 ∧
      (g.add_calculation c).2 = .Intermediate g.num_intermediates) := by
  rcases h : findCalculation c g.calculations with _ | ci
  · have heq : g.add_calculation c =
        ({ g with
            calculations := g.calculations ++ [⟨c, g.num_intermediates⟩]
            num_intermediates := g.num_intermediates + 1 },
          .Intermediate g.num_intermediates) := by
      simp only [GraphEvaluator.add_calculation, h]
    rw [heq]
    exact Or.inr ⟨rfl, rfl, rfl, rfl, rfl, rfl⟩
  · have heq : g.add_calculation c = (g, .Intermediate ci.target) := by
      simp only [GraphEvaluator.add_calculation, h]
    exact Or.inl ⟨ci, rfl, heq⟩

theorem add_calculation_found (g : GraphEvaluator F) (c : Calculation) :
    ∃ t, (g.add_calculation c).2 = .Intermediate t ∧
      findCalculation c (g.add_calculation c).1.calculations = some ⟨c, t⟩ := by
  rcases add_calculation_cases g c with ⟨ci, hf, heq⟩ | ⟨hf, _, _, hk, _, hres⟩
  · obtain ⟨_, hcalc⟩ := findCalculation_some hf
    have hci : ci = ⟨c, ci.target⟩ := by cases ci; cases hcalc; rfl
    exact ⟨ci.target, by rw [heq], by rw [heq, ← hci, hf]⟩
  · exact ⟨g.num_intermediates, hres, by rw [hk]; exact findCalculation_append_self hf _⟩

theorem add_constant_extends (g : GraphEvaluator F) (c : F) :
    Extends g (g.add_constant c).1 := by
  obtain ⟨hc, hr, hk, _, _⟩ := add_constant_spec g c
  exact ⟨hc, append_nil_ext hr, append_nil_ext hk⟩

theorem add_rotation_extends (g : GraphEvaluator F) (rot : Int) :
    Extends g (g.add_rotation rot).1 := by
  obtain ⟨hc, hr, hk, _, _⟩ := add_rotation_spec g rot
  exact ⟨append_nil_ext hc, hr, append_nil_ext hk⟩

theorem add_calculation_extends (g : GraphEvaluator F) (c : Calculation) :
    Extends g (g.add_calculation c).1 := by
  rcases add_calculation_cases g c with ⟨ci, _, heq⟩ | ⟨_, hc, hr, hk, _, _⟩
  · rw [heq]; exact extends_refl g
  · exact ⟨append_nil_ext hc, append_nil_ext hr, ⟨_, hk⟩⟩

theorem add_constant_stable {g g1 g' : GraphEvaluator F} {c : F} {r : ValueSource}
    (h : g.add_constant c = (g1, r)) (hext : Extends g1 g') :
    g'.add_constant c = (g', r) := by
  obtain ⟨⟨d, hd⟩, _, _⟩ := hext
  rcases hp : listPosition c g.constants with _ | i
  · have heq : g.add_constant c =
        ({ g with constants := g.constants ++ [c] }, .Constant g.constants.length) := by
      simp only [GraphEvaluator.add_constant, hp]
    rw [heq] at h
    injection h with h1 h2
    subst h1; subst h2
    have hpos : listPosition c g'.constants = some g.constants.length := by
      rw [hd]
      exact listPosition_append_some d (listPosition_append_self hp)
    simp only [GraphEvaluator.add_constant, hpos]
  · have heq : g.add_constant c = (g, .Constant i) := by
      simp only [GraphEvaluator.add_constant, hp]
    rw [heq] at h
    injection h with h1 h2
    subst h1; subst h2
    have hpos : listPosition c g'.constants = some i := by
      rw [hd]
      exact listPosition_append_some d hp
    simp only [GraphEvaluator.add_constant, hpos]

theorem add_rotation_stable {g g1 g' : GraphEvaluator F} {rot : Int} {r : Nat}
    (h : g.add_rotation rot = (g1, r)) (hext : Extends g1 g') :
    g'.add_rotation rot = (g', r) := by
  obtain ⟨_, ⟨d, hd⟩, _⟩ := hext
  rcases hp : listPosition rot g.rotations with _ | i
  · have heq : g.add_rotation rot =
        ({ g with rotations := g.rotations ++ [rot] }, g.rotations.length) := by
      simp only [GraphEvaluator.add_rotation, hp]
    rw [heq] at h
    injection h with h1 h2
    subst h1; subst h2
    have hpos : listPosition rot g'.rotations = some g.rotations.length := by
      rw [hd]
      exact listPosition_append_some d (listPosition_append_self hp)
    simp only [GraphEvaluator.add_rotation, hpos]
  · have heq : g.add_rotation rot = (g, i) := by
      simp only [GraphEvaluator.add_rotation, hp]
    rw [heq] at h
    injection h with h1 h2
    subst h1; subst h2
    have hpos : listPosition rot g'.rotations = some i := by
      rw [hd]
      exact listPosition_append_some d hp
    simp only [GraphEvaluator.add_rotation, hpos]

theorem add_calculation_stable {g g1 g' : GraphEvaluator F} {c : Calculation} {r : ValueSource}
    (h : g.add_calculation c = (g1, r)) (hext : Extends g1 g') :
    g'.add_calculation c = (g', r) := by
  obtain ⟨_, _, ⟨d, hd⟩⟩ := hext
  obtain ⟨t, ht, hf⟩ := add_calculation_found g c
  rw [h] at ht hf
  have ht' : r = ValueSource.Intermediate t := ht
  have hf' : findCalculation c g1.calculations = some ⟨c, t⟩ := hf
  have hpos : findCalculation c g'.calculations = some ⟨c, t⟩ := by
    rw [hd]
    exact findCalculation_append_some d hf'
  simp only [GraphEvaluator.add_calculation, hpos]
  rw [ht']

theorem graphInv_of_fields {g g' : GraphEvaluator F} (hG : GraphInv g)
    (hc : ∃ d, g'.constants = g.constants ++ d) (hr : ∃ d, g'.rotations = g.rotations ++ d)
    (hk : g'.calculations = g.calculations) (hn : g'.num_intermediates = g.num_intermediates) :
    GraphInv g' := by
  obtain ⟨dc, hdc⟩ := hc
  obtain ⟨dr, hdr⟩ := hr
  refine ⟨?_, ?_, ?_, ?_, ?_, ?_, ?_⟩
  · rw [hn, hk]; exact hG.hlen
  · rw [hk]; exact hG.htargets
  · rw [hdc, List.get?_append (lt_of_get?_eq_some hG.hc0)]; exact hG.hc0
  · rw [hdc, List.get?_append (lt_of_get?_eq_some hG.hc1)]; exact hG.hc1
  · rw [hdc, List.get?_append (lt_of_get?_eq_some hG.hc2)]; exact hG.hc2
  · intro k ci hci vs hvs
    rw [hk] at hci
    exact vsBounded_mono (by rw [hdc, List.length_append]; exact Nat.le_add_right _ _)
      (by rw [hdr, List.length_append]; exact Nat.le_add_right _ _) le_rfl
      (hG.hbound k ci hci vs hvs)
  · rw [hk]; exact hG.hnodup

theorem getValue_extend_rc {rot : List Nat} {con I : List F} (dr : List Nat) (dc : List F)
    (getter : GetDataForEval F) (vs : ValueSource)
    (hb : vsBounded con.length rot.length I.length vs) :
    getValue (rot ++ dr) (con ++ dc) I getter vs = getValue rot con I getter vs := by
  have h := getValue_extend dr dc [] getter vs hb
  rwa [List.append_nil] at h

theorem traceInv_of_fields (getter : GetDataForEval F) (row_index : Nat)
    {g g' : GraphEvaluator F} {I : List F} (hG : GraphInv g)
    (hT : TraceInv getter row_index g I)
    (hc : ∃ d, g'.constants = g.constants ++ d) (hr : ∃ d, g'.rotations = g.rotations ++ d)
    (hk : g'.calculations = g.calculations) : TraceInv getter row_index g' I := by
  obtain ⟨dc, hdc⟩ := hc
  obtain ⟨dr, hdr⟩ := hr
  obtain ⟨hlenI, htr⟩ := hT
  refine ⟨by rw [hk]; exact hlenI, ?_⟩
  intro k ci hci
  rw [hk] at hci
  have hklen : k < g.calculations.length := lt_of_get?_eq_some hci
  rw [hdc, resolved_append getter row_index hdr]
  have hcong :
      ci.calculation.evaluate
        (resolvedRotations getter row_index g ++
          dr.map fun rot => rotIdx row_index rot getter.row_size)
        (g.constants ++ dc) I getter =
      ci.calculation.evaluate (resolvedRotations getter row_index g) g.constants I getter := by
    apply evaluate_congr
    intro vs hvs
    apply getValue_extend_rc
    have hb := hG.hbound k ci hci vs hvs
    rw [resolved_length]
    exact vsBounded_mono le_rfl le_rfl (by omega) hb
  rw [hcong]
  exact htr k ci hci

theorem add_expression_negated_eq (g : GraphEvaluator F) (a : Expression F)
    (ha : ∀ s : F, a ≠ .Constant s) :
    g.add_expression (.Negated a) =
      (if (g.add_expression a).2 = .Constant 0 then g.add_expression a
       else (g.add_expression a).1.add_calculation (.Negate (g.add_expression a).2)) := by
  cases a
  case Constant s => exact absurd rfl (ha s)
  all_goals rfl

theorem add_expression_sum_eq (g : GraphEvaluator F) (a b : Expression F)
    (hb : b.isNegated = false) :
    g.add_expression (.Sum a b) =
      sumArm ((g.add_expression a).1.add_expression b).1 (g.add_expression a).2
        ((g.add_expression a).1.add_expression b).2 := by
  cases b
  case Negated x => simp [Expression.isNegated] at hb
  all_goals rfl

theorem sumArm_swap (g : GraphEvaluator F) (x y : ValueSource) :
    sumArm g x y = sumArm g y x := by
  by_cases h1 : vsLe x y = true <;> by_cases h2 : vsLe y x = true
  · rw [vsLe_antisymm h1 h2]
  · simp [sumArm, h1, h2]
  · simp [sumArm, h1, h2]
  · rcases vsLe_total x y with h | h
    · exact absurd h h1
    · exact absurd h h2

theorem productArm_swap (g : GraphEvaluator F) (x y : ValueSource) :
    productArm g x y = productArm g y x := by
  unfold productArm
  by_cases h0 : x = .Constant 0 ∨ y = .Constant 0
  · rw [if_pos h0, if_pos (Or.symm h0)]
  · rw [if_neg h0, if_neg fun hc => h0 (Or.symm hc)]
    by_cases hx1 : x = .Constant 1 <;> by_cases hy1 : y = .Constant 1
    · rw [if_pos hx1, if_pos hy1, hx1, hy1]
    · rw [if_pos hx1, if_neg hy1, if_pos hx1]
    · rw [if_neg hx1, if_pos hy1, if_pos hy1]
    · rw [if_neg hx1, if_neg hy1, if_neg hy1, if_neg hx1]
      by_cases hx2 : x = .Constant 2 <;> by_cases hy2 : y = .Constant 2
      · rw [if_pos hx2, if_pos hy2, hx2, hy2]
      · rw [if_pos hx2, if_neg hy2, if_pos hx2]
      · rw [if_neg hx2, if_pos hy2, if_pos hy2]
      · rw [if_neg hx2, if_neg hy2, if_neg hy2, if_neg hx2]
        by_cases hxy : x = y
        · rw [if_pos hxy, if_pos hxy.symm, hxy]
        · rw [if_neg hxy, if_neg (show ¬ y = x from fun hc => hxy hc.symm)]
          by_cases hle : vsLe x y = true
          · have hyx : ¬ vsLe y x = true := fun h => hxy (vsLe_antisymm hle h)
            rw [if_pos hle, if_neg hyx]
          · have hyx : vsLe y x = true := by
              rcases vsLe_total x y with h | h
              · exact absurd h hle
              · exact h
            rw [if_neg hle, if_pos hyx]

theorem getD_snoc {α : Type} (l : List α) (w d : α) : (l ++ [w]).getD l.length d = w :=
  getD_of_get? d (List.get?_concat_length _ _)

theorem get?_concat_cases {α : Type} {l : List α} {e x : α} {k : Nat}
    (h : (l ++ [e]).get? k = some x) :
    (k < l.length ∧ l.get? k = some x) ∨ (k = l.length ∧ x = e) := by
  rcases Nat.lt_trichotomy k l.length with hlt | heq | hgt
  · exact Or.inl ⟨hlt, by rwa [List.get?_append hlt] at h⟩
  · subst heq
    rw [List.get?_concat_length] at h
    injection h with h'
    exact Or.inr ⟨rfl, h'.symm⟩
  · exfalso
    rw [List.get?_eq_none.mpr (by rw [List.length_append]; simp; omega)] at h
    exact Option.noConfusion h

theorem resolved_congr (getter : GetDataForEval F) (row_index : Nat)
    {g g' : GraphEvaluator F} (h : g'.rotations = g.rotations) :
    resolvedRotations getter row_index g' = resolvedRotations getter row_index g := by
  unfold resolvedRotations
  rw [h]

theorem add_calculation_sem (getter : GetDataForEval F) (row_index : Nat)
    (g : GraphEvaluator F) (I : List F) (c : Calculation) (w : F)
    (hG : GraphInv g) (hT : TraceInv getter row_index g I)
    (hb : ∀ vs ∈ c.operands,
      vsBounded g.constants.length g.rotations.length g.calculations.length vs)
    (hw : c.evaluate (resolvedRotations getter row_index g) g.constants I getter = .ok w) :
    Sound getter row_index g I (g.add_calculation c) w := by
  obtain ⟨hlenI, htr⟩ := hT
  rcases add_calculation_cases g c with ⟨ci, hf, heq⟩ | ⟨hf, hc, hr, hk, hn, hres⟩
  · -- an equal calculation already exists: its slot already holds w
    obtain ⟨hmem, hcalc⟩ := findCalculation_some hf
    obtain ⟨k, hgk⟩ : ∃ k, g.calculations.get? k = some ci := List.mem_iff_get?.mp hmem
    have htg : ci.target = k := hG.htargets k ci hgk
    have hval := htr k ci hgk
    rw [hcalc, hw] at hval
    injection hval with hwk
    rw [heq]
    unfold Sound
    refine ⟨extends_refl g, hG, I, ⟨[], (List.append_nil I).symm⟩, ⟨hlenI, htr⟩, ?_, ?_⟩
    · simp only [vsBounded]
      rw [htg, hG.hlen]
      exact lt_of_get?_eq_some hgk
    · simp only [getValue]
      rw [htg, hwk]
  · -- fresh insert at the end
    have hlen' : (g.add_calculation c).1.calculations.length = g.calculations.length + 1 := by
      rw [hk, List.length_append]; rfl
    have hres' : resolvedRotations getter row_index (g.add_calculation c).1 =
        resolvedRotations getter row_index g := resolved_congr getter row_index hr
    have hIlen : I.length = g.calculations.length := hlenI
    have hnum : g.num_intermediates = g.calculations.length := hG.hlen
    unfold Sound
    refine ⟨⟨append_nil_ext hc, append_nil_ext hr, ⟨_, hk⟩⟩, ?_, I ++ [w], ⟨[w], rfl⟩, ?_, ?_, ?_⟩
    · -- GraphInv of the extended graph
      refine ⟨?_, ?_, ?_, ?_, ?_, ?_, ?_⟩
      · rw [hn, hlen', hnum]
      · intro k' ci' hci'
        rw [hk] at hci'
        rcases get?_concat_cases hci' with ⟨hlt, hold⟩ | ⟨hkeq, hcie⟩
        · exact hG.htargets k' ci' hold
        · rw [hcie, hkeq, hnum]
      · rw [hc]; exact hG.hc0
      · rw [hc]; exact hG.hc1
      · rw [hc]; exact hG.hc2
      · intro k' ci' hci' vs hvs
        rw [hc, hr]
        rw [hk] at hci'
        rcases get?_concat_cases hci' with ⟨hlt, hold⟩ | ⟨hkeq, hcie⟩
        · exact hG.hbound k' ci' hold vs hvs
        · rw [hcie] at hvs
          rw [hkeq]
          exact hb vs hvs
      · rw [hk]
        rw [List.pairwise_append]
        refine ⟨hG.hnodup, List.pairwise_singleton _ _, ?_⟩
        intro a ha b hb'
        rcases List.mem_singleton.mp hb' with rfl
        exact findCalculation_none hf a ha
    · -- TraceInv of the extended graph with trace I ++ [w]
      refine ⟨by rw [List.length_append, hlen', hIlen]; rfl, ?_⟩
      intro k' ci' hci'
      rw [hres', hc]
      rw [hk] at hci'
      rcases get?_concat_cases hci' with ⟨hlt, hold⟩ | ⟨hkeq, hcie⟩
      · have hcong : ci'.calculation.evaluate (resolvedRotations getter row_index g)
            g.constants (I ++ [w]) getter =
            ci'.calculation.evaluate (resolvedRotations getter row_index g)
              g.constants I getter := by
          apply evaluate_congr
          intro vs hvs
          apply getValue_inter_congr
          intro j hj
          have hbnd := hG.hbound k' ci' hold vs hvs
          rw [hj] at hbnd
          simp only [vsBounded] at hbnd
          exact getD_append_left _ 0 (by omega)
        rw [hcong, getD_append_left _ 0 (by omega)]
        exact htr k' ci' hold
      · rw [hcie]
        have hcong : Calculation.evaluate (resolvedRotations getter row_index g)
            g.constants (I ++ [w]) getter c =
            Calculation.evaluate (resolvedRotations getter row_index g)
              g.constants I getter c := by
          apply evaluate_congr
          intro vs hvs
          apply getValue_inter_congr
          intro j hj
          have hbnd := hb vs hvs
          rw [hj] at hbnd
          simp only [vsBounded] at hbnd
          exact getD_append_left _ 0 (by omega)
        rw [hkeq, ← hIlen, getD_snoc]
        exact hcong.trans hw
    · -- the returned reference is a fresh in-bounds intermediate
      rw [hres]
      simp only [vsBounded]
      rw [hn]
      omega
    · -- and it denotes w
      rw [hres]
      simp only [getValue]
      rw [hnum, ← hIlen, getD_snoc]

theorem getValue_persist (getter : GetDataForEval F) (row_index : Nat)
    {g g' : GraphEvaluator F} {I I' : List F} {vs : ValueSource} {v : F}
    (hext : Extends g g') (hI : ∃ d, I' = I ++ d)
    (hb : vsBounded g.constants.length g.rotations.length I.length vs)
    (hv : getValue (resolvedRotations getter row_index g) g.constants I getter vs = .ok v) :
    getValue (resolvedRotations getter row_index g') g'.constants I' getter vs = .ok v := by
  obtain ⟨⟨dc, hdc⟩, ⟨dr, hdr⟩, _⟩ := hext
  obtain ⟨dI, hdI⟩ := hI
  have hb' : vsBounded g.constants.length
      (resolvedRotations getter row_index g).length I.length vs := by
    rw [resolved_length]; exact hb
  rw [hdc, hdI, resolved_append getter row_index hdr,
    getValue_extend _ _ _ getter vs hb']
  exact hv

theorem extends_calcs_le {g g' : GraphEvaluator F} (hext : Extends g g') :
    g.calculations.length ≤ g'.calculations.length := by
  obtain ⟨_, _, ⟨d, hd⟩⟩ := hext
  rw [hd, List.length_append]
  omega

theorem vsBounded_extends {g g' : GraphEvaluator F} {k k' : Nat} (hext : Extends g g')
    (hk : k ≤ k') {vs : ValueSource}
    (h : vsBounded g.constants.length g.rotations.length k vs) :
    vsBounded g'.constants.length g'.rotations.length k' vs := by
  obtain ⟨⟨dc, hdc⟩, ⟨dr, hdr⟩, _⟩ := hext
  exact vsBounded_mono (by rw [hdc, List.length_append]; omega)
    (by rw [hdr, List.length_append]; omega) hk h

theorem sound_weaken (getter : GetDataForEval F) (row_index : Nat)
    {g g1 : GraphEvaluator F} {I I1 : List F} {p : GraphEvaluator F × ValueSource} {v : F}
    (hext : Extends g g1) (hI : ∃ d, I1 = I ++ d)
    (hS : Sound getter row_index g1 I1 p v) : Sound getter row_index g I p v := by
  obtain ⟨hext2, hinv, I', ⟨d2, hd2⟩, ht, hb, hv⟩ := hS
  obtain ⟨d1, hd1⟩ := hI
  exact ⟨extends_trans hext hext2, hinv, I',
    ⟨d1 ++ d2, by rw [hd2, hd1, List.append_assoc]⟩, ht, hb, hv⟩

theorem constant_value (getter : GetDataForEval F) (rot : List Nat) {con : List F}
    (I : List F) {i : Nat} {z : F} (h : con.get? i = some z) :
    getValue rot con I getter (.Constant i) = .ok z := by
  simp only [getValue]
  rw [getD_of_get? 0 h]

theorem add_constant_sem (getter : GetDataForEval F) (row_index : Nat)
    (g : GraphEvaluator F) (I : List F) (c : F)
    (hG : GraphInv g) (hT : TraceInv getter row_index g I) :
    Sound getter row_index g I (g.add_constant c) c := by
  obtain ⟨⟨dc, hdc⟩, hr, hk, hn, i, hres, hget⟩ := add_constant_spec g c
  unfold Sound
  refine ⟨⟨⟨dc, hdc⟩, append_nil_ext hr, append_nil_ext hk⟩,
    graphInv_of_fields hG ⟨dc, hdc⟩ (append_nil_ext hr) hk hn, I,
    ⟨[], (List.append_nil I).symm⟩,
    traceInv_of_fields getter row_index hG hT ⟨dc, hdc⟩ (append_nil_ext hr) hk, ?_, ?_⟩
  · rw [hres]
    simp only [vsBounded]
    exact lt_of_get?_eq_some hget
  · rw [hres]
    exact constant_value getter _ _ hget

theorem sumArm_sem (getter : GetDataForEval F) (row_index : Nat)
    (g : GraphEvaluator F) (I : List F) (ra rb : ValueSource) (x y : F)
    (hG : GraphInv g) (hT : TraceInv getter row_index g I)
    (hra : vsBounded g.constants.length g.rotations.length g.calculations.length ra)
    (hrb : vsBounded g.constants.length g.rotations.length g.calculations.length rb)
    (hx : getValue (resolvedRotations getter row_index g) g.constants I getter ra = .ok x)
    (hy : getValue (resolvedRotations getter row_index g) g.constants I getter rb = .ok y) :
    Sound getter row_index g I (sumArm g ra rb) (x + y) := by
  unfold sumArm
  by_cases h : vsLe ra rb = true
  · rw [if_pos h]
    apply add_calculation_sem getter row_index g I _ _ hG hT
    · intro vs hvs
      simp only [Calculation.operands, List.mem_cons, List.not_mem_nil, or_false] at hvs
      rcases hvs with rfl | rfl
      · exact hra
      · exact hrb
    · simp only [Calculation.evaluate]
      rw [hx, hy]
  · rw [if_neg h, add_comm x y]
    apply add_calculation_sem getter row_index g I _ _ hG hT
    · intro vs hvs
      simp only [Calculation.operands, List.mem_cons, List.not_mem_nil, or_false] at hvs
      rcases hvs with rfl | rfl
      · exact hrb
      · exact hra
    · simp only [Calculation.evaluate]
      rw [hx, hy]

theorem value_of_constant_ref {getter : GetDataForEval F} {rot : List Nat} {con I : List F}
    {i : Nat} {z x : F} (hpool : con.get? i = some z)
    (hx : getValue rot con I getter (.Constant i) = .ok x) : x = z := by
  rw [constant_value getter rot I hpool] at hx
  injection hx with h
  exact h.symm

theorem productArm_sem (getter : GetDataForEval F) (row_index : Nat)
    (g : GraphEvaluator F) (I : List F) (ra rb : ValueSource) (x y : F)
    (hG : GraphInv g) (hT : TraceInv getter row_index g I)
    (hra : vsBounded g.constants.length g.rotations.length g.calculations.length ra)
    (hrb : vsBounded g.constants.length g.rotations.length g.calculations.length rb)
    (hx : getValue (resolvedRotations getter row_index g) g.constants I getter ra = .ok x)
    (hy : getValue (resolvedRotations getter row_index g) g.constants I getter rb = .ok y) :
    Sound getter row_index g I (productArm g ra rb) (x * y) := by
  unfold productArm
  by_cases h0 : ra = .Constant 0 ∨ rb = .Constant 0
  · rw [if_pos h0]
    have hxy : x * y = 0 := by
      rcases h0 with h | h
      · rw [h] at hx
        rw [value_of_constant_ref hG.hc0 hx, zero_mul]
      · rw [h] at hy
        rw [value_of_constant_ref hG.hc0 hy, mul_zero]
    refine ⟨extends_refl g, hG, I, ⟨[], (List.append_nil I).symm⟩, hT, ?_, ?_⟩
    · simp only [vsBounded]
      exact lt_of_get?_eq_some hG.hc0
    · rw [constant_value getter _ _ hG.hc0, hxy]
  · rw [if_neg h0]
    by_cases h1 : ra = .Constant 1
    · rw [if_pos h1]
      rw [h1] at hx
      rw [value_of_constant_ref hG.hc1 hx, one_mul]
      exact ⟨extends_refl g, hG, I, ⟨[], (List.append_nil I).symm⟩, hT,
        by rw [hG.hlen]; exact hrb, hy⟩
    · rw [if_neg h1]
      by_cases h2 : rb = .Constant 1
      · rw [if_pos h2]
        rw [h2] at hy
        rw [value_of_constant_ref hG.hc1 hy, mul_one]
        exact ⟨extends_refl g, hG, I, ⟨[], (List.append_nil I).symm⟩, hT,
          by rw [hG.hlen]; exact hra, hx⟩
      · rw [if_neg h2]
        by_cases h3 : ra = .Constant 2
        · rw [if_pos h3]
          rw [h3] at hx
          rw [value_of_constant_ref hG.hc2 hx, two_mul]
          apply add_calculation_sem getter row_index g I _ _ hG ⟨hT.1, hT.2⟩
          · intro vs hvs
            simp only [Calculation.operands, List.mem_cons, List.not_mem_nil, or_false] at hvs
            rcases hvs with rfl
            exact hrb
          · simp only [Calculation.evaluate]
            rw [hy]
        · rw [if_neg h3]
          by_cases h4 : rb = .Constant 2
          · rw [if_pos h4]
            rw [h4] at hy
            rw [value_of_constant_ref hG.hc2 hy, mul_two]
            apply add_calculation_sem getter row_index g I _ _ hG ⟨hT.1, hT.2⟩
            · intro vs hvs
              simp only [Calculation.operands, List.mem_cons, List.not_mem_nil, or_false] at hvs
              rcases hvs with rfl
              exact hra
            · simp only [Calculation.evaluate]
              rw [hx]
          · rw [if_neg h4]
            by_cases h5 : ra = rb
            · rw [if_pos h5]
              have hyx : y = x := by
                rw [← h5] at hy
                rw [hx] at hy
                injection hy with h
                exact h.symm
              rw [hyx]
              apply add_calculation_sem getter row_index g I _ _ hG ⟨hT.1, hT.2⟩
              · intro vs hvs
                simp only [Calculation.operands, List.mem_cons, List.not_mem_nil, or_false] at hvs
                rcases hvs with rfl
                exact hra
              · simp only [Calculation.evaluate]
                rw [hx]
            · rw [if_neg h5]
              by_cases h6 : vsLe ra rb = true
              · rw [if_pos h6]
                apply add_calculation_sem getter row_index g I _ _ hG ⟨hT.1, hT.2⟩
                · intro vs hvs
                  simp only [Calculation.operands, List.mem_cons, List.not_mem_nil,
                    or_false] at hvs
                  rcases hvs with rfl | rfl
                  · exact hra
                  · exact hrb
                · simp only [Calculation.evaluate]
                  rw [hx, hy]
              · rw [if_neg h6, mul_comm x y]
                apply add_calculation_sem getter row_index g I _ _ hG ⟨hT.1, hT.2⟩
                · intro vs hvs
                  simp only [Calculation.operands, List.mem_cons, List.not_mem_nil,
                    or_false] at hvs
                  rcases hvs with rfl | rfl
                  · exact hrb
                  · exact hra
                · simp only [Calculation.evaluate]
                  rw [hy, hx]

theorem trace_ext_trans {I I1 I2 : List F} (h1 : ∃ d, I1 = I ++ d) (h2 : ∃ d, I2 = I1 ++ d) :
    ∃ d, I2 = I ++ d := by
  obtain ⟨d1, hd1⟩ := h1
  obtain ⟨d2, hd2⟩ := h2
  exact ⟨d1 ++ d2, by rw [hd2, hd1, List.append_assoc]⟩

theorem add_expression_sub_eq (g : GraphEvaluator F) (a bi : Expression F) :
    g.add_expression (.Sum a (.Negated bi)) =
      (if (g.add_expression a).2 = .Constant 0 then
        ((g.add_expression a).1.add_expression bi).1.add_calculation
          (.Negate ((g.add_expression a).1.add_expression bi).2)
      else if ((g.add_expression a).1.add_expression bi).2 = .Constant 0 then
        (((g.add_expression a).1.add_expression bi).1, (g.add_expression a).2)
      else ((g.add_expression a).1.add_expression bi).1.add_calculation
        (.Sub (g.add_expression a).2 ((g.add_expression a).1.add_expression bi).2)) := rfl

theorem add_expression_product_eq (g : GraphEvaluator F) (a b : Expression F) :
    g.add_expression (.Product a b) =
      productArm ((g.add_expression a).1.add_expression b).1 (g.add_expression a).2
        ((g.add_expression a).1.add_expression b).2 := rfl

theorem negated_general_sem (getter : GetDataForEval F) (row_index : Nat)
    (a : Expression F) (g : GraphEvaluator F) (I : List F) (v : F)
    (IH : ∀ (g' : GraphEvaluator F) (I' : List F) (x : F),
      a.directEval getter row_index = .ok x → GraphInv g' →
      TraceInv getter row_index g' I' → Sound getter row_index g' I' (g'.add_expression a) x)
    (ha : ∀ s : F, a ≠ .Constant s)
    (he : (Expression.Negated a).directEval getter row_index = .ok v)
    (hG : GraphInv g) (hT : TraceInv getter row_index g I) :
    Sound getter row_index g I (g.add_expression (.Negated a)) v := by
  simp only [Expression.directEval] at he
  cases hae : a.directEval getter row_index with
  | error e =>
    rw [hae] at he
    exact Except.noConfusion (show Except.error e = Except.ok v from he)
  | ok x =>
    rw [hae] at he
    have he' : Except.ok (ε := EvalError) (-x) = .ok v := he
    injection he' with hv
    obtain ⟨hext1, hG1, I1, hI1, hT1, hb1, hv1⟩ := IH g I x hae hG hT
    rw [add_expression_negated_eq g a ha]
    by_cases hc0 : (g.add_expression a).2 = .Constant 0
    · rw [if_pos hc0]
      rw [hc0] at hv1
      have hx0 : x = 0 := value_of_constant_ref hG1.hc0 hv1
      refine ⟨hext1, hG1, I1, hI1, hT1, ?_, ?_⟩
      · rw [hc0]
        simp only [vsBounded]
        exact lt_of_get?_eq_some hG1.hc0
      · rw [hc0, constant_value getter _ _ hG1.hc0, ← hv, hx0, neg_zero]
    · rw [if_neg hc0, ← hv]
      apply sound_weaken getter row_index hext1 hI1
      apply add_calculation_sem getter row_index _ I1 _ _ hG1 hT1
      · intro vs hvs
        simp only [Calculation.operands, List.mem_cons, List.not_mem_nil, or_false] at hvs
        rcases hvs with rfl
        rw [← hG1.hlen]
        exact hb1
      · simp only [Calculation.evaluate]
        rw [hv1]

theorem sum_general_sem (getter : GetDataForEval F) (row_index : Nat)
    (a b : Expression F) (g : GraphEvaluator F) (I : List F) (v : F)
    (IHa : ∀ (g' : GraphEvaluator F) (I' : List F) (x : F),
      a.directEval getter row_index = .ok x → GraphInv g' →
      TraceInv getter row_index g' I' → Sound getter row_index g' I' (g'.add_expression a) x)
    (IHb : ∀ (g' : GraphEvaluator F) (I' : List F) (x : F),
      b.directEval getter row_index = .ok x → GraphInv g' →
      TraceInv getter row_index g' I' → Sound getter row_index g' I' (g'.add_expression b) x)
    (hbneg : b.isNegated = false)
    (he : (Expression.Sum a b).directEval getter row_index = .ok v)
    (hG : GraphInv g) (hT : TraceInv getter row_index g I) :
    Sound getter row_index g I (g.add_expression (.Sum a b)) v := by
  simp only [Expression.directEval] at he
  cases hae : a.directEval getter row_index with
  | error e =>
    rw [hae] at he
    exact Except.noConfusion (show Except.error e = Except.ok v from he)
  | ok x =>
    rw [hae] at he
    cases hbe : b.directEval getter row_index with
    | error e =>
      rw [hbe] at he
      exact Except.noConfusion (show Except.error e = Except.ok v from he)
    | ok y =>
      rw [hbe] at he
      have he' : Except.ok (ε := EvalError) (x + y) = .ok v := he
      injection he' with hv
      obtain ⟨hext1, hG1, I1, hI1, hT1, hb1, hv1⟩ := IHa g I x hae hG hT
      obtain ⟨hext2, hG2, I2, hI2, hT2, hb2, hv2⟩ :=
        IHb (g.add_expression a).1 I1 y hbe hG1 hT1
      have hb1c : vsBounded (g.add_expression a).1.constants.length
          (g.add_expression a).1.rotations.length
          (g.add_expression a).1.calculations.length (g.add_expression a).2 := by
        rw [← hG1.hlen]; exact hb1
      have hb1I : vsBounded (g.add_expression a).1.constants.length
          (g.add_expression a).1.rotations.length I1.length (g.add_expression a).2 := by
        rw [hT1.1]; exact hb1c
      have hv1' := getValue_persist getter row_index hext2 hI2 hb1I hv1
      have hb1g2 := vsBounded_extends hext2 (extends_calcs_le hext2) hb1c
      have hb2c : vsBounded ((g.add_expression a).1.add_expression b).1.constants.length
          ((g.add_expression a).1.add_expression b).1.rotations.length
          ((g.add_expression a).1.add_expression b).1.calculations.length
          ((g.add_expression a).1.add_expression b).2 := by
        rw [← hG2.hlen]; exact hb2
      rw [add_expression_sum_eq g a b hbneg, ← hv]
      apply sound_weaken getter row_index hext1 hI1
      apply sound_weaken getter row_index hext2 hI2
      exact sumArm_sem getter row_index _ I2 _ _ x y hG2 hT2 hb1g2 hb2c hv1' hv2

theorem sum_sub_sem (getter : GetDataForEval F) (row_index : Nat)
    (a bi : Expression F) (g : GraphEvaluator F) (I : List F) (v : F)
    (IHa : ∀ (g' : GraphEvaluator F) (I' : List F) (x : F),
      a.directEval getter row_index = .ok x → GraphInv g' →
      TraceInv getter row_index g' I' → Sound getter row_index g' I' (g'.add_expression a) x)
    (IHb : ∀ (g' : GraphEvaluator F) (I' : List F) (x : F),
      bi.directEval getter row_index = .ok x → GraphInv g' →
      TraceInv getter row_index g' I' → Sound getter row_index g' I' (g'.add_expression bi) x)
    (he : (Expression.Sum a (.Negated bi)).directEval getter row_index = .ok v)
    (hG : GraphInv g) (hT : TraceInv getter row_index g I) :
    Sound getter row_index g I (g.add_expression (.Sum a (.Negated bi))) v := by
  simp only [Expression.directEval] at he
  cases hae : a.directEval getter row_index with
  | error e =>
    rw [hae] at he
    exact Except.noConfusion (show Except.error e = Except.ok v from he)
  | ok x =>
    rw [hae] at he
    cases hbe : bi.directEval getter row_index with
    | error e =>
      rw [hbe] at he
      exact Except.noConfusion (show Except.error e = Except.ok v from he)
    | ok y =>
      rw [hbe] at he
      have he' : Except.ok (ε := EvalError) (x + -y) = .ok v := he
      injection he' with hv
      obtain ⟨hext1, hG1, I1, hI1, hT1, hb1, hv1⟩ := IHa g I x hae hG hT
      obtain ⟨hext2, hG2, I2, hI2, hT2, hb2, hv2⟩ :=
        IHb (g.add_expression a).1 I1 y hbe hG1 hT1
      have hb1c : vsBounded (g.add_expression a).1.constants.length
          (g.add_expression a).1.rotations.length
          (g.add_expression a).1.calculations.length (g.add_expression a).2 := by
        rw [← hG1.hlen]; exact hb1
      have hb1I : vsBounded (g.add_expression a).1.constants.length
          (g.add_expression a).1.rotations.length I1.length (g.add_expression a).2 := by
        rw [hT1.1]; exact hb1c
      have hv1' := getValue_persist getter row_index hext2 hI2 hb1I hv1
      have hb1g2 := vsBounded_extends hext2 (extends_calcs_le hext2) hb1c
      have hb2c : vsBounded ((g.add_expression a).1.add_expression bi).1.constants.length
          ((g.add_expression a).1.add_expression bi).1.rotations.length
          ((g.add_expression a).1.add_expression bi).1.calculations.length
          ((g.add_expression a).1.add_expression bi).2 := by
        rw [← hG2.hlen]; exact hb2
      rw [add_expression_sub_eq g a bi]
      by_cases hra0 : (g.add_expression a).2 = .Constant 0
      · rw [if_pos hra0]
        rw [hra0] at hv1'
        have hx0 : x = 0 := value_of_constant_ref hG2.hc0 hv1'
        rw [← hv, hx0, zero_add]
        apply sound_weaken getter row_index hext1 hI1
        apply sound_weaken getter row_index hext2 hI2
        apply add_calculation_sem getter row_index _ I2 _ _ hG2 hT2
        · intro vs hvs
          simp only [Calculation.operands, List.mem_cons, List.not_mem_nil, or_false] at hvs
          rcases hvs with rfl
          exact hb2c
        · simp only [Calculation.evaluate]
          rw [hv2]
      · rw [if_neg hra0]
        by_cases hrb0 : ((g.add_expression a).1.add_expression bi).2 = .Constant 0
        · rw [if_pos hrb0]
          rw [hrb0] at hv2
          have hy0 : y = 0 := value_of_constant_ref hG2.hc0 hv2
          rw [← hv, hy0, neg_zero, add_zero]
          refine ⟨extends_trans hext1 hext2, hG2, I2, trace_ext_trans hI1 hI2, hT2, ?_, hv1'⟩
          rw [hG2.hlen]
          exact hb1g2
        · rw [if_neg hrb0, ← hv, ← sub_eq_add_neg]
          apply sound_weaken getter row_index hext1 hI1
          apply sound_weaken getter row_index hext2 hI2
          apply add_calculation_sem getter row_index _ I2 _ _ hG2 hT2
          · intro vs hvs
            simp only [Calculation.operands, List.mem_cons, List.not_mem_nil, or_false] at hvs
            rcases hvs with rfl | rfl
            · exact hb1g2
            · exact hb2c
          · simp only [Calculation.evaluate]
            rw [hv1', hv2]

theorem product_sem (getter : GetDataForEval F) (row_index : Nat)
    (a b : Expression F) (g : GraphEvaluator F) (I : List F) (v : F)
    (IHa : ∀ (g' : GraphEvaluator F) (I' : List F) (x : F),
      a.directEval getter row_index = .ok x → GraphInv g' →
      TraceInv getter row_index g' I' → Sound getter row_index g' I' (g'.add_expression a) x)
    (IHb : ∀ (g' : GraphEvaluator F) (I' : List F) (x : F),
      b.directEval getter row_index = .ok x → GraphInv g' →
      TraceInv getter row_index g' I' → Sound getter row_index g' I' (g'.add_expression b) x)
    (he : (Expression.Product a b).directEval getter row_index = .ok v)
    (hG : GraphInv g) (hT : TraceInv getter row_index g I) :
    Sound getter row_index g I (g.add_expression (.Product a b)) v := by
  simp only [Expression.directEval] at he
  cases hae : a.directEval getter row_index with
  | error e =>
    rw [hae] at he
    exact Except.noConfusion (show Except.error e = Except.ok v from he)
  | ok x =>
    rw [hae] at he
    cases hbe : b.directEval getter row_index with
    | error e =>
      rw [hbe] at he
      exact Except.noConfusion (show Except.error e = Except.ok v from he)
    | ok y =>
      rw [hbe] at he
      have he' : Except.ok (ε := EvalError) (x * y) = .ok v := he
      injection he' with hv
      obtain ⟨hext1, hG1, I1, hI1, hT1, hb1, hv1⟩ := IHa g I x hae hG hT
      obtain ⟨hext2, hG2, I2, hI2, hT2, hb2, hv2⟩ :=
        IHb (g.add_expression a).1 I1 y hbe hG1 hT1
      have hb1c : vsBounded (g.add_expression a).1.constants.length
          (g.add_expression a).1.rotations.length
          (g.add_expression a).1.calculations.length (g.add_expression a).2 := by
        rw [← hG1.hlen]; exact hb1
      have hb1I : vsBounded (g.add_expression a).1.constants.length
          (g.add_expression a).1.rotations.length I1.length (g.add_expression a).2 := by
        rw [hT1.1]; exact hb1c
      have hv1' := getValue_persist getter row_index hext2 hI2 hb1I hv1
      have hb1g2 := vsBounded_extends hext2 (extends_calcs_le hext2) hb1c
      have hb2c : vsBounded ((g.add_expression a).1.add_expression b).1.constants.length
          ((g.add_expression a).1.add_expression b).1.rotations.length
          ((g.add_expression a).1.add_expression b).1.calculations.length
          ((g.add_expression a).1.add_expression b).2 := by
        rw [← hG2.hlen]; exact hb2
      rw [add_expression_product_eq g a b, ← hv]
      apply sound_weaken getter row_index hext1 hI1
      apply sound_weaken getter row_index hext2 hI2
      exact productArm_sem getter row_index _ I2 _ _ x y hG2 hT2 hb1g2 hb2c hv1' hv2

theorem add_expression_sound (getter : GetDataForEval F) (row_index : Nat) :
    ∀ (e : Expression F) (g : GraphEvaluator F) (I : List F) (v : F),
      e.directEval getter row_index = .ok v → GraphInv g →
      TraceInv getter row_index g I →
      Sound getter row_index g I (g.add_expression e) v
  | .Constant s, g, I, v, he, hG, hT => by
    have he' : Except.ok (ε := EvalError) s = .ok v := he
    injection he' with hv
    rw [show g.add_expression (.Constant s) = g.add_constant s from rfl, ← hv]
    exact add_constant_sem getter row_index g I s hG hT
  | .Polynomial q, g, I, v, he, hG, hT => by
    have he' : getter.eval_column_var (rotIdx row_index q.rotation getter.row_size) q.index =
        .ok v := he
    obtain ⟨hcon, ⟨dr, hrot⟩, hk, hn, hget⟩ := add_rotation_spec g q.rotation
    have hG1 : GraphInv (g.add_rotation q.rotation).1 :=
      graphInv_of_fields hG (append_nil_ext hcon) ⟨dr, hrot⟩ hk hn
    have hT1 : TraceInv getter row_index (g.add_rotation q.rotation).1 I :=
      traceInv_of_fields getter row_index hG hT (append_nil_ext hcon) ⟨dr, hrot⟩ hk
    have hrotval : (resolvedRotations getter row_index (g.add_rotation q.rotation).1).getD
        (g.add_rotation q.rotation).2 0 = rotIdx row_index q.rotation getter.row_size := by
      apply getD_of_get?
      unfold resolvedRotations
      rw [List.get?_map, hget]
      rfl
    rw [show g.add_expression (.Polynomial q) =
        (g.add_rotation q.rotation).1.add_calculation
          (.Store (.Poly q.index (g.add_rotation q.rotation).2)) from rfl]
    apply sound_weaken getter row_index (add_rotation_extends g q.rotation)
      ⟨[], (List.append_nil I).symm⟩
    apply add_calculation_sem getter row_index _ I _ _ hG1 hT1
    · intro vs hvs
      simp only [Calculation.operands, List.mem_cons, List.not_mem_nil, or_false] at hvs
      rcases hvs with rfl
      simp only [vsBounded]
      exact lt_of_get?_eq_some hget
    · simp only [Calculation.evaluate, getValue]
      rw [hrotval]
      exact he'
  | .Challenge i, g, I, v, he, hG, hT => by
    simp only [Expression.directEval] at he
    cases hch : getter.challenges.get? i with
    | none =>
      rw [hch] at he
      exact Except.noConfusion (show Except.error
        (EvalError.ChallengeIndexOutOfBoundary i getter.challenges.length) =
          Except.ok v from he)
    | some c =>
      rw [hch] at he
      have he' : Except.ok (ε := EvalError) c = .ok v := he
      injection he' with hv
      rw [show g.add_expression (.Challenge i) =
        g.add_calculation (.Store (.Challenge i)) from rfl]
      apply add_calculation_sem getter row_index g I _ _ hG hT
      · intro vs hvs
        simp only [Calculation.operands, List.mem_cons, List.not_mem_nil, or_false] at hvs
        rcases hvs with rfl
        simp only [vsBounded]
      · simp only [Calculation.evaluate, getValue]
        rw [hch, hv]
  | .Negated a, g, I, v, he, hG, hT => by
    cases a with
    | Constant s =>
      have he' : Except.ok (ε := EvalError) (-s) = .ok v := he
      injection he' with hv
      rw [show g.add_expression (.Negated (.Constant s)) = g.add_constant (-s) from rfl, ← hv]
      exact add_constant_sem getter row_index g I (-s) hG hT
    | Polynomial q =>
      exact negated_general_sem getter row_index _ g I v
        (fun g' I' x hx hG' hT' => add_expression_sound getter row_index _ g' I' x hx hG' hT')
        (fun s h => Expression.noConfusion h) he hG hT
    | Challenge i =>
      exact negated_general_sem getter row_index _ g I v
        (fun g' I' x hx hG' hT' => add_expression_sound getter row_index _ g' I' x hx hG' hT')
        (fun s h => Expression.noConfusion h) he hG hT
    | Negated x =>
      exact negated_general_sem getter row_index _ g I v
        (fun g' I' x hx hG' hT' => add_expression_sound getter row_index _ g' I' x hx hG' hT')
        (fun s h => Expression.noConfusion h) he hG hT
    | Sum x y =>
      exact negated_general_sem getter row_index _ g I v
        (fun g' I' x hx hG' hT' => add_expression_sound getter row_index _ g' I' x hx hG' hT')
        (fun s h => Expression.noConfusion h) he hG hT
    | Product x y =>
      exact negated_general_sem getter row_index _ g I v
        (fun g' I' x hx hG' hT' => add_expression_sound getter row_index _ g' I' x hx hG' hT')
        (fun s h => Expression.noConfusion h) he hG hT
    | Scaled x f =>
      exact negated_general_sem getter row_index _ g I v
        (fun g' I' x hx hG' hT' => add_expression_sound getter row_index _ g' I' x hx hG' hT')
        (fun s h => Expression.noConfusion h) he hG hT
  | .Sum a b, g, I, v, he, hG, hT => by
    cases b with
    | Negated bi =>
      exact sum_sub_sem getter row_index a bi g I v
        (fun g' I' x hx hG' hT' => add_expression_sound getter row_index _ g' I' x hx hG' hT')
        (fun g' I' x hx hG' hT' => add_expression_sound getter row_index _ g' I' x hx hG' hT')
        he hG hT
    | Constant c =>
      exact sum_general_sem getter row_index a _ g I v
        (fun g' I' x hx hG' hT' => add_expression_sound getter row_index _ g' I' x hx hG' hT')
        (fun g' I' x hx hG' hT' => add_expression_sound getter row_index _ g' I' x hx hG' hT')
        rfl he hG hT
    | Polynomial q =>
      exact sum_general_sem getter row_index a _ g I v
        (fun g' I' x hx hG' hT' => add_expression_sound getter row_index _ g' I' x hx hG' hT')
        (fun g' I' x hx hG' hT' => add_expression_sound getter row_index _ g' I' x hx hG' hT')
        rfl he hG hT
    | Challenge i =>
      exact sum_general_sem getter row_index a _ g I v
        (fun g' I' x hx hG' hT' => add_expression_sound getter row_index _ g' I' x hx hG' hT')
        (fun g' I' x hx hG' hT' => add_expression_sound getter row_index _ g' I' x hx hG' hT')
        rfl he hG hT
    | Sum x y =>
      exact sum_general_sem getter row_index a _ g I v
        (fun g' I' x hx hG' hT' => add_expression_sound getter row_index _ g' I' x hx hG' hT')
        (fun g' I' x hx hG' hT' => add_expression_sound getter row_index _ g' I' x hx hG' hT')
        rfl he hG hT
    | Product x y =>
      exact sum_general_sem getter row_index a _ g I v
        (fun g' I' x hx hG' hT' => add_expression_sound getter row_index _ g' I' x hx hG' hT')
        (fun g' I' x hx hG' hT' => add_expression_sound getter row_index _ g' I' x hx hG' hT')
        rfl he hG hT
    | Scaled x f =>
      exact sum_general_sem getter row_index a _ g I v
        (fun g' I' x hx hG' hT' => add_expression_sound getter row_index _ g' I' x hx hG' hT')
        (fun g' I' x hx hG' hT' => add_expression_sound getter row_index _ g' I' x hx hG' hT')
        rfl he hG hT
  | .Product a b, g, I, v, he, hG, hT => by
    exact product_sem getter row_index a b g I v
      (fun g' I' x hx hG' hT' => add_expression_sound getter row_index _ g' I' x hx hG' hT')
      (fun g' I' x hx hG' hT' => add_expression_sound getter row_index _ g' I' x hx hG' hT')
      he hG hT
  | .Scaled a f, g, I, v, he, hG, hT => by
    simp only [Expression.directEval] at he
    cases hae : a.directEval getter row_index with
    | error e =>
      rw [hae] at he
      exact Except.noConfusion (show Except.error e = Except.ok v from he)
    | ok x =>
      rw [hae] at he
      have he' : Except.ok (ε := EvalError) (x * f) = .ok v := he
      injection he' with hv
      rw [show g.add_expression (.Scaled a f) =
          (if f = 0 then (g, ValueSource.Constant 0)
           else if f = 1 then g.add_expression a
           else ((g.add_constant f).1.add_expression a).1.add_calculation
             (.Mul ((g.add_constant f).1.add_expression a).2 (g.add_constant f).2)) from rfl]
      by_cases hf0 : f = 0
      · rw [if_pos hf0]
        refine ⟨extends_refl g, hG, I, ⟨[], (List.append_nil I).symm⟩, hT, ?_, ?_⟩
        · simp only [vsBounded]
          exact lt_of_get?_eq_some hG.hc0
        · rw [constant_value getter _ _ hG.hc0, ← hv, hf0, mul_zero]
      · rw [if_neg hf0]
        by_cases hf1 : f = 1
        · rw [if_pos hf1, ← hv, hf1, mul_one]
          exact add_expression_sound getter row_index a g I x hae hG hT
        · rw [if_neg hf1]
          obtain ⟨hextc, hGc, Ic, hIc, hTc, hbc, hvc⟩ :=
            add_constant_sem getter row_index g I f hG hT
          obtain ⟨hexta, hGa, Ia, hIa, hTa, hba, hva⟩ :=
            add_expression_sound getter row_index a (g.add_constant f).1 Ic x hae hGc hTc
          have hbcc : vsBounded (g.add_constant f).1.constants.length
              (g.add_constant f).1.rotations.length
              (g.add_constant f).1.calculations.length (g.add_constant f).2 := by
            rw [← hGc.hlen]; exact hbc
          have hbcI : vsBounded (g.add_constant f).1.constants.length
              (g.add_constant f).1.rotations.length Ic.length (g.add_constant f).2 := by
            rw [hTc.1]; exact hbcc
          have hvc' := getValue_persist getter row_index hexta hIa hbcI hvc
          have hbcg2 := vsBounded_extends hexta (extends_calcs_le hexta) hbcc
          have hbac : vsBounded ((g.add_constant f).1.add_expression a).1.constants.length
              ((g.add_constant f).1.add_expression a).1.rotations.length
              ((g.add_constant f).1.add_expression a).1.calculations.length
              ((g.add_constant f).1.add_expression a).2 := by
            rw [← hGa.hlen]; exact hba
          rw [← hv]
          apply sound_weaken getter row_index hextc hIc
          apply sound_weaken getter row_index hexta hIa
          apply add_calculation_sem getter row_index _ Ia _ _ hGa hTa
          · intro vs hvs
            simp only [Calculation.operands, List.mem_cons, List.not_mem_nil, or_false] at hvs
            rcases hvs with rfl | rfl
            · exact hbac
            · exact hbcg2
          · simp only [Calculation.evaluate]
            rw [hva, hvc']

theorem findCalculation_eq_none {c : Calculation} :
    ∀ {l : List CalculationInfo}, (∀ ci ∈ l, ci.calculation ≠ c) →
      findCalculation c l = none := by
  intro l
  induction l with
  | nil => intro _; rfl
  | cons d ds ih =>
    intro h
    rw [findCalculation, if_neg (h d (List.mem_cons_self _ _))]
    exact ih fun ci hci => h ci (List.mem_cons_of_mem _ hci)

theorem graphInv_empty : GraphInv (GraphEvaluator.empty (F := F)) := by
  refine ⟨rfl, ?_, rfl, rfl, rfl, ?_, ?_⟩
  · intro k ci h
    simp [GraphEvaluator.empty] at h
  · intro k ci h
    simp [GraphEvaluator.empty] at h
  · simp [GraphEvaluator.empty]

theorem traceInv_empty (getter : GetDataForEval F) (row_index : Nat) :
    TraceInv getter row_index (GraphEvaluator.empty (F := F)) [] := by
  refine ⟨rfl, ?_⟩
  intro k ci h
  simp [GraphEvaluator.empty] at h

theorem runCalcs_aux (getter : GetDataForEval F) (row_index : Nat) (g : GraphEvaluator F)
    (I : List F) (hG : GraphInv g) (hT : TraceInv getter row_index g I) :
    ∀ (cs : List CalculationInfo) (k : Nat), g.calculations.drop k = cs →
      k ≤ g.calculations.length →
      runCalcs (resolvedRotations getter row_index g) g.constants getter cs
        (I.take k ++ List.replicate (g.calculations.length - k) 0) = .ok I := by
  intro cs
  induction cs with
  | nil =>
    intro k hdrop hk
    have hklen : g.calculations.length ≤ k := by
      have hlen := congrArg List.length hdrop
      simp [List.length_drop] at hlen
      omega
    have hkeq : k = g.calculations.length := le_antisymm hk hklen
    subst hkeq
    rw [Nat.sub_self]
    show Except.ok (I.take g.calculations.length ++ List.replicate 0 (0:F)) = .ok I
    rw [show List.replicate 0 (0:F) = [] from rfl, List.append_nil, ← hT.1, List.take_length]
  | cons ci rest ih =>
    intro k hdrop hk
    have hget : g.calculations.get? k = some ci := by
      have h0 := List.getElem?_drop g.calculations k 0
      rw [hdrop] at h0
      simpa [List.get?_eq_getElem?] using h0.symm
    have hklt : k < g.calculations.length := lt_of_get?_eq_some hget
    have htg : ci.target = k := hG.htargets k ci hget
    have hval := hT.2 k ci hget
    have hIlen : I.length = g.calculations.length := hT.1
    have hcong : ci.calculation.evaluate (resolvedRotations getter row_index g) g.constants
        (I.take k ++ List.replicate (g.calculations.length - k) 0) getter =
        ci.calculation.evaluate (resolvedRotations getter row_index g) g.constants I getter := by
      apply evaluate_congr
      intro vs hvs
      apply getValue_inter_congr
      intro j hj
      have hbnd := hG.hbound k ci hget vs hvs
      rw [hj] at hbnd
      simp only [vsBounded] at hbnd
      rw [getD_append_left _ _ (by rw [List.length_take]; omega), getD_take _ hbnd]
    simp only [runCalcs]
    rw [hcong, hval]
    have hset : (I.take k ++ List.replicate (g.calculations.length - k) (0:F)).set ci.target
        (I.getD k 0) = I.take (k+1) ++ List.replicate (g.calculations.length - (k+1)) 0 := by
      rw [htg]
      have hrepl : List.replicate (g.calculations.length - k) (0:F) =
          0 :: List.replicate (g.calculations.length - (k+1)) 0 := by
        rw [show g.calculations.length - k = (g.calculations.length - (k+1)) + 1 from by omega,
          List.replicate_succ]
      rw [hrepl]
      have hlentake : (I.take k).length = k := by
        rw [List.length_take]
        omega
      obtain ⟨x, hx⟩ : ∃ x, I.get? k = some x := ⟨_, List.get?_eq_get (by omega)⟩
      have hgd : I.getD k 0 = x := getD_of_get? 0 hx
      calc (I.take k ++ 0 :: List.replicate (g.calculations.length - (k+1)) (0:F)).set k
            (I.getD k 0)
          = I.take k ++ I.getD k 0 :: List.replicate (g.calculations.length - (k+1)) 0 := by
            have hsc := set_append_cons (I.take k)
              (List.replicate (g.calculations.length - (k+1)) (0:F)) 0 (I.getD k 0)
            rw [hlentake] at hsc
            exact hsc
        _ = (I.take k ++ [I.getD k 0]) ++ List.replicate (g.calculations.length - (k+1)) 0 := by
            rw [List.append_assoc]
            rfl
        _ = I.take (k+1) ++ List.replicate (g.calculations.length - (k+1)) 0 := by
            rw [List.take_succ, ← List.get?_eq_getElem?, hx, hgd]
            rfl
    show runCalcs (resolvedRotations getter row_index g) g.constants getter rest
      ((List.take k I ++ List.replicate (g.calculations.length - k) 0).set ci.target
        (I.getD k 0)) = Except.ok I
    rw [hset]
    refine ih (k+1) ?_ (by omega)
    rw [← List.drop_drop, hdrop]
    simp

theorem runCalcs_of_traceInv (getter : GetDataForEval F) (row_index : Nat)
    (g : GraphEvaluator F) (I : List F) (hG : GraphInv g)
    (hT : TraceInv getter row_index g I) :
    runCalcs (resolvedRotations getter row_index g) g.constants getter g.calculations
      (List.replicate g.num_intermediates 0) = .ok I := by
  have h := runCalcs_aux getter row_index g I hG hT g.calculations 0 rfl (Nat.zero_le _)
  simp only [List.take_zero, List.nil_append, Nat.sub_zero] at h
  rw [hG.hlen]
  exact h

theorem resolveRotations_pos (row_index n : Nat) (hn : 0 < n) :
    ∀ rots : List Int,
      resolveRotations row_index n rots = some (rots.map fun rot => rotIdx row_index rot n) := by
  intro rots
  induction rots with
  | nil => rfl
  | cons r rest ih =>
    simp only [resolveRotations, get_rotation_idx, if_neg (Nat.pos_iff_ne_zero.mp hn), ih,
      List.map]

theorem resolveRotations_resolved (getter : GetDataForEval F) (row_index : Nat)
    (g : GraphEvaluator F) (hrow : 0 < getter.row_size) :
    resolveRotations row_index getter.row_size g.rotations =
      some (resolvedRotations getter row_index g) :=
  resolveRotations_pos row_index getter.row_size hrow g.rotations

theorem add_calculation_static (g : GraphEvaluator F) (c : Calculation)
    (hso : storeOnlyColumns c = true) (hnh : c.isHorner = false) :
    Extends g (g.add_calculation c).1 ∧
    (∃ t, (g.add_calculation c).2 = .Intermediate t) ∧
    (g.add_calculation c).1.calculations.length ≤ g.calculations.length + 1 ∧
    ∀ ci ∈ (g.add_calculation c).1.calculations, ci ∈ g.calculations ∨
      (storeOnlyColumns ci.calculation = true ∧ ci.calculation.isHorner = false) := by
  rcases add_calculation_cases g c with ⟨ci', hf, heq⟩ | ⟨hf, hc, hr, hk, hn, hres⟩
  · rw [heq]
    exact ⟨extends_refl g, ⟨ci'.target, rfl⟩, Nat.le_add_right _ _, fun ci h => Or.inl h⟩
  · refine ⟨add_calculation_extends g c, ⟨g.num_intermediates, hres⟩, ?_, ?_⟩
    · rw [hk, List.length_append]
      simp
    · intro ci h
      rw [hk] at h
      rcases List.mem_append.mp h with h | h
      · exact Or.inl h
      · rcases List.mem_singleton.mp h with rfl
        exact Or.inr ⟨hso, hnh⟩

theorem static_sumArm (g : GraphEvaluator F) (ra rb : ValueSource) :
    Extends g (sumArm g ra rb).1 ∧ (∃ t, (sumArm g ra rb).2 = .Intermediate t) ∧
    (sumArm g ra rb).1.calculations.length ≤ g.calculations.length + 1 ∧
    ∀ ci ∈ (sumArm g ra rb).1.calculations, ci ∈ g.calculations ∨
      (storeOnlyColumns ci.calculation = true ∧ ci.calculation.isHorner = false) := by
  unfold sumArm
  by_cases h : vsLe ra rb = true
  · rw [if_pos h]
    exact add_calculation_static g _ rfl rfl
  · rw [if_neg h]
    exact add_calculation_static g _ rfl rfl

theorem static_productArm (g : GraphEvaluator F) (ra rb : ValueSource)
    (hra : (∃ i, ra = .Constant i) ∨ ∃ t, ra = .Intermediate t)
    (hrb : (∃ i, rb = .Constant i) ∨ ∃ t, rb = .Intermediate t) :
    Extends g (productArm g ra rb).1 ∧
    ((∃ i, (productArm g ra rb).2 = .Constant i) ∨
      ∃ t, (productArm g ra rb).2 = .Intermediate t) ∧
    (productArm g ra rb).1.calculations.length ≤ g.calculations.length + 1 ∧
    ∀ ci ∈ (productArm g ra rb).1.calculations, ci ∈ g.calculations ∨
      (storeOnlyColumns ci.calculation = true ∧ ci.calculation.isHorner = false) := by
  unfold productArm
  split_ifs with h0 h1 h2 h3 h4 h5 h6
  · exact ⟨extends_refl g, Or.inl ⟨0, rfl⟩, Nat.le_add_right _ _, fun ci h => Or.inl h⟩
  · exact ⟨extends_refl g, hrb, Nat.le_add_right _ _, fun ci h => Or.inl h⟩
  · exact ⟨extends_refl g, hra, Nat.le_add_right _ _, fun ci h => Or.inl h⟩
  · obtain ⟨he, hs, hl, ht⟩ := add_calculation_static g (.Double rb) rfl rfl
    exact ⟨he, Or.inr hs, hl, ht⟩
  · obtain ⟨he, hs, hl, ht⟩ := add_calculation_static g (.Double ra) rfl rfl
    exact ⟨he, Or.inr hs, hl, ht⟩
  · obtain ⟨he, hs, hl, ht⟩ := add_calculation_static g (.Square ra) rfl rfl
    exact ⟨he, Or.inr hs, hl, ht⟩
  · obtain ⟨he, hs, hl, ht⟩ := add_calculation_static g (.Mul ra rb) rfl rfl
    exact ⟨he, Or.inr hs, hl, ht⟩
  · obtain ⟨he, hs, hl, ht⟩ := add_calculation_static g (.Mul rb ra) rfl rfl
    exact ⟨he, Or.inr hs, hl, ht⟩

theorem static_constant (g : GraphEvaluator F) (s : F) : StaticFacts g (.Constant s) := by
  unfold StaticFacts
  rw [show g.add_expression (.Constant s) = g.add_constant s from rfl]
  obtain ⟨hc, hr, hk, hn, i, hres, _⟩ := add_constant_spec g s
  refine ⟨⟨hc, append_nil_ext hr, append_nil_ext hk⟩, Or.inl ⟨i, hres⟩, ?_, ?_⟩
  · rw [hk]
    simp [Expression.size]
  · intro ci h
    rw [hk] at h
    exact Or.inl h

theorem static_polynomial (g : GraphEvaluator F) (q : Query) :
    StaticFacts g (.Polynomial q) := by
  unfold StaticFacts
  rw [show g.add_expression (.Polynomial q) =
    (g.add_rotation q.rotation).1.add_calculation
      (.Store (.Poly q.index (g.add_rotation q.rotation).2)) from rfl]
  obtain ⟨hc, hr, hk, hn, _⟩ := add_rotation_spec g q.rotation
  obtain ⟨hext2, hsh, hlen2, htame⟩ := add_calculation_static (g.add_rotation q.rotation).1
    (.Store (.Poly q.index (g.add_rotation q.rotation).2)) rfl rfl
  rw [hk] at hlen2 htame
  refine ⟨extends_trans (add_rotation_extends g q.rotation) hext2, Or.inr hsh, ?_, htame⟩
  simp only [Expression.size]
  omega

theorem static_challenge (g : GraphEvaluator F) (i : Nat) :
    StaticFacts g (.Challenge i : Expression F) := by
  unfold StaticFacts
  rw [show g.add_expression (.Challenge i) = g.add_calculation (.Store (.Challenge i)) from rfl]
  obtain ⟨hext2, hsh, hlen2, htame⟩ :=
    add_calculation_static g (.Store (.Challenge i)) rfl rfl
  refine ⟨hext2, Or.inr hsh, ?_, htame⟩
  simp only [Expression.size]
  omega

theorem static_negated (a : Expression F) (ha : ∀ s : F, a ≠ .Constant s)
    (IH : ∀ g : GraphEvaluator F, StaticFacts g a) :
    ∀ g : GraphEvaluator F, StaticFacts g (.Negated a) := by
  intro g
  obtain ⟨hext1, hsh1, hlen1, htame1⟩ := IH g
  unfold StaticFacts
  rw [add_expression_negated_eq g a ha]
  by_cases hc0 : (g.add_expression a).2 = .Constant 0
  · rw [if_pos hc0]
    exact ⟨hext1, hsh1, by simp only [Expression.size]; omega, htame1⟩
  · rw [if_neg hc0]
    obtain ⟨hext2, hsh2, hlen2, htame2⟩ := add_calculation_static (g.add_expression a).1
      (.Negate (g.add_expression a).2) rfl rfl
    refine ⟨extends_trans hext1 hext2, Or.inr hsh2, ?_, ?_⟩
    · simp only [Expression.size]
      omega
    · intro ci h
      rcases htame2 ci h with h' | h'
      · exact htame1 ci h'
      · exact Or.inr h'

theorem static_sum_sub (a bi : Expression F)
    (IHa : ∀ g : GraphEvaluator F, StaticFacts g a)
    (IHb : ∀ g : GraphEvaluator F, StaticFacts g bi) :
    ∀ g : GraphEvaluator F, StaticFacts g (.Sum a (.Negated bi)) := by
  intro g
  obtain ⟨hext1, hsh1, hlen1, htame1⟩ := IHa g
  obtain ⟨hext2, hsh2, hlen2, htame2⟩ := IHb (g.add_expression a).1
  have hchain : ∀ ci ∈ ((g.add_expression a).1.add_expression bi).1.calculations,
      ci ∈ g.calculations ∨
      (storeOnlyColumns ci.calculation = true ∧ ci.calculation.isHorner = false) :=
    fun ci h => (htame2 ci h).elim (fun h' => htame1 ci h') Or.inr
  unfold StaticFacts
  rw [add_expression_sub_eq g a bi]
  by_cases h1 : (g.add_expression a).2 = .Constant 0
  · rw [if_pos h1]
    obtain ⟨hext3, hsh3, hlen3, htame3⟩ :=
      add_calculation_static ((g.add_expression a).1.add_expression bi).1
        (.Negate ((g.add_expression a).1.add_expression bi).2) rfl rfl
    refine ⟨extends_trans hext1 (extends_trans hext2 hext3), Or.inr hsh3, ?_, ?_⟩
    · simp only [Expression.size]
      omega
    · intro ci h
      rcases htame3 ci h with h' | h'
      · exact hchain ci h'
      · exact Or.inr h'
  · rw [if_neg h1]
    by_cases h2 : ((g.add_expression a).1.add_expression bi).2 = .Constant 0
    · rw [if_pos h2]
      refine ⟨extends_trans hext1 hext2, hsh1, ?_, hchain⟩
      simp only [Expression.size]
      omega
    · rw [if_neg h2]
      obtain ⟨hext3, hsh3, hlen3, htame3⟩ :=
        add_calculation_static ((g.add_expression a).1.add_expression bi).1
          (.Sub (g.add_expression a).2 ((g.add_expression a).1.add_expression bi).2) rfl rfl
      refine ⟨extends_trans hext1 (extends_trans hext2 hext3), Or.inr hsh3, ?_, ?_⟩
      · simp only [Expression.size]
        omega
      · intro ci h
        rcases htame3 ci h with h' | h'
        · exact hchain ci h'
        · exact Or.inr h'

theorem static_sum_general (a b : Expression F) (hb : b.isNegated = false)
    (IHa : ∀ g : GraphEvaluator F, StaticFacts g a)
    (IHb : ∀ g : GraphEvaluator F, StaticFacts g b) :
    ∀ g : GraphEvaluator F, StaticFacts g (.Sum a b) := by
  intro g
  obtain ⟨hext1, hsh1, hlen1, htame1⟩ := IHa g
  obtain ⟨hext2, hsh2, hlen2, htame2⟩ := IHb (g.add_expression a).1
  have hchain : ∀ ci ∈ ((g.add_expression a).1.add_expression b).1.calculations,
      ci ∈ g.calculations ∨
      (storeOnlyColumns ci.calculation = true ∧ ci.calculation.isHorner = false) :=
    fun ci h => (htame2 ci h).elim (fun h' => htame1 ci h') Or.inr
  unfold StaticFacts
  rw [add_expression_sum_eq g a b hb]
  obtain ⟨hext3, hsh3, hlen3, htame3⟩ := static_sumArm ((g.add_expression a).1.add_expression b).1
    (g.add_expression a).2 ((g.add_expression a).1.add_expression b).2
  refine ⟨extends_trans hext1 (extends_trans hext2 hext3), Or.inr hsh3, ?_, ?_⟩
  · simp only [Expression.size]
    omega
  · intro ci h
    rcases htame3 ci h with h' | h'
    · exact hchain ci h'
    · exact Or.inr h'

theorem static_product (a b : Expression F)
    (IHa : ∀ g : GraphEvaluator F, StaticFacts g a)
    (IHb : ∀ g : GraphEvaluator F, StaticFacts g b) :
    ∀ g : GraphEvaluator F, StaticFacts g (.Product a b) := by
  intro g
  obtain ⟨hext1, hsh1, hlen1, htame1⟩ := IHa g
  obtain ⟨hext2, hsh2, hlen2, htame2⟩ := IHb (g.add_expression a).1
  have hchain : ∀ ci ∈ ((g.add_expression a).1.add_expression b).1.calculations,
      ci ∈ g.calculations ∨
      (storeOnlyColumns ci.calculation = true ∧ ci.calculation.isHorner = false) :=
    fun ci h => (htame2 ci h).elim (fun h' => htame1 ci h') Or.inr
  unfold StaticFacts
  rw [add_expression_product_eq g a b]
  obtain ⟨hext3, hsh3, hlen3, htame3⟩ :=
    static_productArm ((g.add_expression a).1.add_expression b).1
      (g.add_expression a).2 ((g.add_expression a).1.add_expression b).2 hsh1 hsh2
  refine ⟨extends_trans hext1 (extends_trans hext2 hext3), hsh3, ?_, ?_⟩
  · simp only [Expression.size]
    omega
  · intro ci h
    rcases htame3 ci h with h' | h'
    · exact hchain ci h'
    · exact Or.inr h'

theorem static_scaled (a : Expression F) (f : F)
    (IHa : ∀ g : GraphEvaluator F, StaticFacts g a) :
    ∀ g : GraphEvaluator F, StaticFacts g (.Scaled a f) := by
  intro g
  unfold StaticFacts
  rw [show g.add_expression (.Scaled a f) =
      (if f = 0 then (g, ValueSource.Constant 0)
       else if f = 1 then g.add_expression a
       else ((g.add_constant f).1.add_expression a).1.add_calculation
         (.Mul ((g.add_constant f).1.add_expression a).2 (g.add_constant f).2)) from rfl]
  by_cases hf0 : f = 0
  · rw [if_pos hf0]
    exact ⟨extends_refl g, Or.inl ⟨0, rfl⟩, by simp only [Expression.size]; omega,
      fun ci h => Or.inl h⟩
  · rw [if_neg hf0]
    by_cases hf1 : f = 1
    · rw [if_pos hf1]
      obtain ⟨hext1, hsh1, hlen1, htame1⟩ := IHa g
      exact ⟨hext1, hsh1, by simp only [Expression.size]; omega, htame1⟩
    · rw [if_neg hf1]
      obtain ⟨hcc, hcr, hck, hcn, i, hcres, _⟩ := add_constant_spec g f
      obtain ⟨hext1, hsh1, hlen1, htame1⟩ := IHa (g.add_constant f).1
      obtain ⟨hext3, hsh3, hlen3, htame3⟩ :=
        add_calculation_static ((g.add_constant f).1.add_expression a).1
          (.Mul ((g.add_constant f).1.add_expression a).2 (g.add_constant f).2) rfl rfl
      rw [hck] at hlen1 htame1
      refine ⟨extends_trans (add_constant_extends g f) (extends_trans hext1 hext3),
        Or.inr hsh3, ?_, ?_⟩
      · simp only [Expression.size]
        omega
      · intro ci h
        rcases htame3 ci h with h' | h'
        · exact htame1 ci h'
        · exact Or.inr h'

theorem add_expression_static :
    ∀ (e : Expression F) (g : GraphEvaluator F), StaticFacts g e
  | .Constant s, g => static_constant g s
  | .Polynomial q, g => static_polynomial g q
  | .Challenge i, g => static_challenge g i
  | .Negated a, g => by
    cases a with
    | Constant s =>
      unfold StaticFacts
      rw [show g.add_expression (.Negated (.Constant s)) = g.add_constant (-s) from rfl]
      obtain ⟨hc, hr, hk, hn, i, hres, _⟩ := add_constant_spec g (-s)
      refine ⟨⟨hc, append_nil_ext hr, append_nil_ext hk⟩, Or.inl ⟨i, hres⟩, ?_, ?_⟩
      · rw [hk]
        simp [Expression.size]
      · intro ci h
        rw [hk] at h
        exact Or.inl h
    | Polynomial q =>
      exact static_negated _ (fun s h => Expression.noConfusion h)
        (fun g' => add_expression_static _ g') g
    | Challenge i =>
      exact static_negated _ (fun s h => Expression.noConfusion h)
        (fun g' => add_expression_static _ g') g
    | Negated x =>
      exact static_negated _ (fun s h => Expression.noConfusion h)
        (fun g' => add_expression_static _ g') g
    | Sum x y =>
      exact static_negated _ (fun s h => Expression.noConfusion h)
        (fun g' => add_expression_static _ g') g
    | Product x y =>
      exact static_negated _ (fun s h => Expression.noConfusion h)
        (fun g' => add_expression_static _ g') g
    | Scaled x f =>
      exact static_negated _ (fun s h => Expression.noConfusion h)
        (fun g' => add_expression_static _ g') g
  | .Sum a b, g => by
    cases b with
    | Negated bi =>
      exact static_sum_sub a bi (fun g' => add_expression_static a g')
        (fun g' => add_expression_static bi g') g
    | Constant c =>
      exact static_sum_general a (.Constant c) rfl (fun g' => add_expression_static a g')
        (fun g' => add_expression_static _ g') g
    | Polynomial q =>
      exact static_sum_general a (.Polynomial q) rfl (fun g' => add_expression_static a g')
        (fun g' => add_expression_static _ g') g
    | Challenge i =>
      exact static_sum_general a (.Challenge i) rfl (fun g' => add_expression_static a g')
        (fun g' => add_expression_static _ g') g
    | Sum x y =>
      exact static_sum_general a (.Sum x y) rfl (fun g' => add_expression_static a g')
        (fun g' => add_expression_static _ g') g
    | Product x y =>
      exact static_sum_general a (.Product x y) rfl (fun g' => add_expression_static a g')
        (fun g' => add_expression_static _ g') g
    | Scaled x f =>
      exact static_sum_general a (.Scaled x f) rfl (fun g' => add_expression_static a g')
        (fun g' => add_expression_static _ g') g
  | .Product a b, g =>
    static_product a b (fun g' => add_expression_static a g')
      (fun g' => add_expression_static b g') g
  | .Scaled a f, g =>
    static_scaled a f (fun g' => add_expression_static a g') g

theorem sumArm_extends (g : GraphEvaluator F) (ra rb : ValueSource) :
    Extends g (sumArm g ra rb).1 := by
  unfold sumArm
  split_ifs <;> exact add_calculation_extends _ _

theorem productArm_extends (g : GraphEvaluator F) (ra rb : ValueSource) :
    Extends g (productArm g ra rb).1 := by
  unfold productArm
  split_ifs <;> first | exact extends_refl g | exact add_calculation_extends _ _

theorem sumArm_stable {g g1 g' : GraphEvaluator F} {ra rb r : ValueSource}
    (h : sumArm g ra rb = (g1, r)) (hext : Extends g1 g') : sumArm g' ra rb = (g', r) := by
  unfold sumArm at h ⊢
  by_cases hle : vsLe ra rb = true
  · rw [if_pos hle] at h ⊢
    exact add_calculation_stable h hext
  · rw [if_neg hle] at h ⊢
    exact add_calculation_stable h hext

theorem productArm_stable {g g1 g' : GraphEvaluator F} {ra rb r : ValueSource}
    (h : productArm g ra rb = (g1, r)) (hext : Extends g1 g') :
    productArm g' ra rb = (g', r) := by
  unfold productArm at h ⊢
  split_ifs at h ⊢ with h0 h1 h2 h3 h4 h5 h6
  · injection h with ha hb
    rw [hb]
  · injection h with ha hb
    rw [hb]
  · injection h with ha hb
    rw [hb]
  · exact add_calculation_stable h hext
  · exact add_calculation_stable h hext
  · exact add_calculation_stable h hext
  · exact add_calculation_stable h hext
  · exact add_calculation_stable h hext

theorem stable_negated (a : Expression F) (ha : ∀ s : F, a ≠ .Constant s)
    (IH : ∀ (g g1 : GraphEvaluator F) (r : ValueSource) (g' : GraphEvaluator F),
      g.add_expression a = (g1, r) → Extends g1 g' → g'.add_expression a = (g', r)) :
    ∀ (g g1 : GraphEvaluator F) (r : ValueSource) (g' : GraphEvaluator F),
      g.add_expression (.Negated a) = (g1, r) → Extends g1 g' →
      g'.add_expression (.Negated a) = (g', r) := by
  intro g g1 r g' h hext
  rw [add_expression_negated_eq g a ha] at h
  by_cases hc0 : (g.add_expression a).2 = .Constant 0
  · rw [if_pos hc0] at h
    have hstable := IH g g1 r g' h hext
    have hr0 : r = .Constant 0 := by
      have h2 : (g.add_expression a).2 = r := by rw [h]
      rw [← h2]
      exact hc0
    rw [add_expression_negated_eq g' a ha, hstable,
      if_pos (show ((g', r) : GraphEvaluator F × ValueSource).2 = .Constant 0 from hr0)]
  · rw [if_neg hc0] at h
    have hext_a1 : Extends (g.add_expression a).1 g1 := by
      have hx := add_calculation_extends (g.add_expression a).1
        (.Negate (g.add_expression a).2)
      rw [h] at hx
      exact hx
    have hstable := IH g (g.add_expression a).1 (g.add_expression a).2 g' rfl
      (extends_trans hext_a1 hext)
    rw [add_expression_negated_eq g' a ha, hstable,
      if_neg (show ¬ ((g', (g.add_expression a).2) :
        GraphEvaluator F × ValueSource).2 = .Constant 0 from hc0)]
    exact add_calculation_stable h hext

theorem stable_sum_general (a b : Expression F) (hb : b.isNegated = false)
    (IHa : ∀ (g g1 : GraphEvaluator F) (r : ValueSource) (g' : GraphEvaluator F),
      g.add_expression a = (g1, r) → Extends g1 g' → g'.add_expression a = (g', r))
    (IHb : ∀ (g g1 : GraphEvaluator F) (r : ValueSource) (g' : GraphEvaluator F),
      g.add_expression b = (g1, r) → Extends g1 g' → g'.add_expression b = (g', r)) :
    ∀ (g g1 : GraphEvaluator F) (r : ValueSource) (g' : GraphEvaluator F),
      g.add_expression (.Sum a b) = (g1, r) → Extends g1 g' →
      g'.add_expression (.Sum a b) = (g', r) := by
  intro g g1 r g' h hext
  rw [add_expression_sum_eq g a b hb] at h
  have hext_b1 : Extends ((g.add_expression a).1.add_expression b).1 g1 := by
    have hx := sumArm_extends ((g.add_expression a).1.add_expression b).1
      (g.add_expression a).2 ((g.add_expression a).1.add_expression b).2
    rw [h] at hx
    exact hx
  have hext_a1 : Extends (g.add_expression a).1 g1 :=
    extends_trans (add_expression_static b (g.add_expression a).1).1 hext_b1
  have hsta := IHa g (g.add_expression a).1 (g.add_expression a).2 g' rfl
    (extends_trans hext_a1 hext)
  have hstb := IHb (g.add_expression a).1 ((g.add_expression a).1.add_expression b).1
    ((g.add_expression a).1.add_expression b).2 g' rfl (extends_trans hext_b1 hext)
  have hcomb : (g'.add_expression a).1.add_expression b =
      (g', ((g.add_expression a).1.add_expression b).2) := by
    rw [hsta]
    exact hstb
  rw [add_expression_sum_eq g' a b hb, hcomb, hsta]
  exact sumArm_stable h hext

theorem stable_sum_sub (a bi : Expression F)
    (IHa : ∀ (g g1 : GraphEvaluator F) (r : ValueSource) (g' : GraphEvaluator F),
      g.add_expression a = (g1, r) → Extends g1 g' → g'.add_expression a = (g', r))
    (IHb : ∀ (g g1 : GraphEvaluator F) (r : ValueSource) (g' : GraphEvaluator F),
      g.add_expression bi = (g1, r) → Extends g1 g' → g'.add_expression bi = (g', r)) :
    ∀ (g g1 : GraphEvaluator F) (r : ValueSource) (g' : GraphEvaluator F),
      g.add_expression (.Sum a (.Negated bi)) = (g1, r) → Extends g1 g' →
      g'.add_expression (.Sum a (.Negated bi)) = (g', r) := by
  intro g g1 r g' h hext
  rw [add_expression_sub_eq g a bi] at h
  have hext_b1 : Extends ((g.add_expression a).1.add_expression bi).1 g1 := by
    have h' := h
    by_cases h1 : (g.add_expression a).2 = .Constant 0
    · rw [if_pos h1] at h'
      have hx := add_calculation_extends ((g.add_expression a).1.add_expression bi).1
        (.Negate ((g.add_expression a).1.add_expression bi).2)
      rw [h'] at hx
      exact hx
    · rw [if_neg h1] at h'
      by_cases h2 : ((g.add_expression a).1.add_expression bi).2 = .Constant 0
      · rw [if_pos h2] at h'
        injection h' with h3 h4
        exact h3 ▸ extends_refl _
      · rw [if_neg h2] at h'
        have hx := add_calculation_extends ((g.add_expression a).1.add_expression bi).1
          (.Sub (g.add_expression a).2 ((g.add_expression a).1.add_expression bi).2)
        rw [h'] at hx
        exact hx
  have hext_a1 : Extends (g.add_expression a).1 g1 :=
    extends_trans (add_expression_static bi (g.add_expression a).1).1 hext_b1
  have hsta := IHa g (g.add_expression a).1 (g.add_expression a).2 g' rfl
    (extends_trans hext_a1 hext)
  have hstb := IHb (g.add_expression a).1 ((g.add_expression a).1.add_expression bi).1
    ((g.add_expression a).1.add_expression bi).2 g' rfl (extends_trans hext_b1 hext)
  have hcomb : (g'.add_expression a).1.add_expression bi =
      (g', ((g.add_expression a).1.add_expression bi).2) := by
    rw [hsta]
    exact hstb
  rw [add_expression_sub_eq g' a bi, hcomb, hsta]
  by_cases h1 : (g.add_expression a).2 = .Constant 0
  · rw [if_pos h1] at h
    rw [if_pos (show ((g', (g.add_expression a).2) :
      GraphEvaluator F × ValueSource).2 = .Constant 0 from h1)]
    exact add_calculation_stable h hext
  · rw [if_neg h1] at h
    rw [if_neg (show ¬ ((g', (g.add_expression a).2) :
      GraphEvaluator F × ValueSource).2 = .Constant 0 from h1)]
    by_cases h2 : ((g.add_expression a).1.add_expression bi).2 = .Constant 0
    · rw [if_pos h2] at h
      injection h with h3 h4
      rw [if_pos (show ((g', ((g.add_expression a).1.add_expression bi).2) :
        GraphEvaluator F × ValueSource).2 = .Constant 0 from h2), h4]
    · rw [if_neg h2] at h
      rw [if_neg (show ¬ ((g', ((g.add_expression a).1.add_expression bi).2) :
        GraphEvaluator F × ValueSource).2 = .Constant 0 from h2)]
      exact add_calculation_stable h hext

theorem stable_product (a b : Expression F)
    (IHa : ∀ (g g1 : GraphEvaluator F) (r : ValueSource) (g' : GraphEvaluator F),
      g.add_expression a = (g1, r) → Extends g1 g' → g'.add_expression a = (g', r))
    (IHb : ∀ (g g1 : GraphEvaluator F) (r : ValueSource) (g' : GraphEvaluator F),
      g.add_expression b = (g1, r) → Extends g1 g' → g'.add_expression b = (g', r)) :
    ∀ (g g1 : GraphEvaluator F) (r : ValueSource) (g' : GraphEvaluator F),
      g.add_expression (.Product a b) = (g1, r) → Extends g1 g' →
      g'.add_expression (.Product a b) = (g', r) := by
  intro g g1 r g' h hext
  rw [add_expression_product_eq g a b] at h
  have hext_b1 : Extends ((g.add_expression a).1.add_expression b).1 g1 := by
    have hx := productArm_extends ((g.add_expression a).1.add_expression b).1
      (g.add_expression a).2 ((g.add_expression a).1.add_expression b).2
    rw [h] at hx
    exact hx
  have hext_a1 : Extends (g.add_expression a).1 g1 :=
    extends_trans (add_expression_static b (g.add_expression a).1).1 hext_b1
  have hsta := IHa g (g.add_expression a).1 (g.add_expression a).2 g' rfl
    (extends_trans hext_a1 hext)
  have hstb := IHb (g.add_expression a).1 ((g.add_expression a).1.add_expression b).1
    ((g.add_expression a).1.add_expression b).2 g' rfl (extends_trans hext_b1 hext)
  have hcomb : (g'.add_expression a).1.add_expression b =
      (g', ((g.add_expression a).1.add_expression b).2) := by
    rw [hsta]
    exact hstb
  rw [add_expression_product_eq g' a b, hcomb, hsta]
  exact productArm_stable h hext

theorem add_expression_stable :
    ∀ (e : Expression F) (g g1 : GraphEvaluator F) (r : ValueSource) (g' : GraphEvaluator F),
      g.add_expression e = (g1, r) → Extends g1 g' → g'.add_expression e = (g', r)
  | .Constant s, g, g1, r, g', h, hext => add_constant_stable h hext
  | .Polynomial q, g, g1, r, g', h, hext => by
    have h' : (g.add_rotation q.rotation).1.add_calculation
        (.Store (.Poly q.index (g.add_rotation q.rotation).2)) = (g1, r) := h
    have hext_rot : Extends (g.add_rotation q.rotation).1 g1 := by
      have hx := add_calculation_extends (g.add_rotation q.rotation).1
        (.Store (.Poly q.index (g.add_rotation q.rotation).2))
      rw [h'] at hx
      exact hx
    have hstrot := add_rotation_stable
      (show g.add_rotation q.rotation =
        ((g.add_rotation q.rotation).1, (g.add_rotation q.rotation).2) from rfl)
      (extends_trans hext_rot hext)
    rw [show g'.add_expression (.Polynomial q) =
      (g'.add_rotation q.rotation).1.add_calculation
        (.Store (.Poly q.index (g'.add_rotation q.rotation).2)) from rfl, hstrot]
    exact add_calculation_stable h' hext
  | .Challenge i, g, g1, r, g', h, hext => add_calculation_stable h hext
  | .Negated a, g, g1, r, g', h, hext => by
    cases a with
    | Constant s => exact add_constant_stable h hext
    | Polynomial q =>
      exact stable_negated _ (fun s hc => Expression.noConfusion hc)
        (fun g g1 r g' h1 h2 => add_expression_stable _ g g1 r g' h1 h2) g g1 r g' h hext
    | Challenge i =>
      exact stable_negated _ (fun s hc => Expression.noConfusion hc)
        (fun g g1 r g' h1 h2 => add_expression_stable _ g g1 r g' h1 h2) g g1 r g' h hext
    | Negated x =>
      exact stable_negated _ (fun s hc => Expression.noConfusion hc)
        (fun g g1 r g' h1 h2 => add_expression_stable _ g g1 r g' h1 h2) g g1 r g' h hext
    | Sum x y =>
      exact stable_negated _ (fun s hc => Expression.noConfusion hc)
        (fun g g1 r g' h1 h2 => add_expression_stable _ g g1 r g' h1 h2) g g1 r g' h hext
    | Product x y =>
      exact stable_negated _ (fun s hc => Expression.noConfusion hc)
        (fun g g1 r g' h1 h2 => add_expression_stable _ g g1 r g' h1 h2) g g1 r g' h hext
    | Scaled x f =>
      exact stable_negated _ (fun s hc => Expression.noConfusion hc)
        (fun g g1 r g' h1 h2 => add_expression_stable _ g g1 r g' h1 h2) g g1 r g' h hext
  | .Sum a b, g, g1, r, g', h, hext => by
    cases b with
    | Negated bi =>
      exact stable_sum_sub a bi
        (fun g g1 r g' h1 h2 => add_expression_stable a g g1 r g' h1 h2)
        (fun g g1 r g' h1 h2 => add_expression_stable bi g g1 r g' h1 h2) g g1 r g' h hext
    | Constant c =>
      exact stable_sum_general a (.Constant c) rfl
        (fun g g1 r g' h1 h2 => add_expression_stable a g g1 r g' h1 h2)
        (fun g g1 r g' h1 h2 => add_expression_stable _ g g1 r g' h1 h2) g g1 r g' h hext
    | Polynomial q =>
      exact stable_sum_general a (.Polynomial q) rfl
        (fun g g1 r g' h1 h2 => add_expression_stable a g g1 r g' h1 h2)
        (fun g g1 r g' h1 h2 => add_expression_stable _ g g1 r g' h1 h2) g g1 r g' h hext
    | Challenge i =>
      exact stable_sum_general a (.Challenge i) rfl
        (fun g g1 r g' h1 h2 => add_expression_stable a g g1 r g' h1 h2)
        (fun g g1 r g' h1 h2 => add_expression_stable _ g g1 r g' h1 h2) g g1 r g' h hext
    | Sum x y =>
      exact stable_sum_general a (.Sum x y) rfl
        (fun g g1 r g' h1 h2 => add_expression_stable a g g1 r g' h1 h2)
        (fun g g1 r g' h1 h2 => add_expression_stable _ g g1 r g' h1 h2) g g1 r g' h hext
    | Product x y =>
      exact stable_sum_general a (.Product x y) rfl
        (fun g g1 r g' h1 h2 => add_expression_stable a g g1 r g' h1 h2)
        (fun g g1 r g' h1 h2 => add_expression_stable _ g g1 r g' h1 h2) g g1 r g' h hext
    | Scaled x f =>
      exact stable_sum_general a (.Scaled x f) rfl
        (fun g g1 r g' h1 h2 => add_expression_stable a g g1 r g' h1 h2)
        (fun g g1 r g' h1 h2 => add_expression_stable _ g g1 r g' h1 h2) g g1 r g' h hext
  | .Product a b, g, g1, r, g', h, hext =>
    stable_product a b
      (fun g g1 r g' h1 h2 => add_expression_stable a g g1 r g' h1 h2)
      (fun g g1 r g' h1 h2 => add_expression_stable b g g1 r g' h1 h2) g g1 r g' h hext
  | .Scaled a f, g, g1, r, g', h, hext => by
    have h' : (if f = 0 then (g, ValueSource.Constant 0)
        else if f = 1 then g.add_expression a
        else ((g.add_constant f).1.add_expression a).1.add_calculation
          (.Mul ((g.add_constant f).1.add_expression a).2 (g.add_constant f).2)) = (g1, r) := h
    rw [show g'.add_expression (.Scaled a f) =
        (if f = 0 then (g', ValueSource.Constant 0)
         else if f = 1 then g'.add_expression a
         else ((g'.add_constant f).1.add_expression a).1.add_calculation
           (.Mul ((g'.add_constant f).1.add_expression a).2 (g'.add_constant f).2)) from rfl]
    by_cases hf0 : f = 0
    · rw [if_pos hf0] at h' ⊢
      injection h' with h3 h4
      rw [h4]
    · rw [if_neg hf0] at h' ⊢
      by_cases hf1 : f = 1
      · rw [if_pos hf1] at h' ⊢
        exact add_expression_stable a g g1 r g' h' hext
      · rw [if_neg hf1] at h' ⊢
        have hext_a1 : Extends ((g.add_constant f).1.add_expression a).1 g1 := by
          have hx := add_calculation_extends ((g.add_constant f).1.add_expression a).1
            (.Mul ((g.add_constant f).1.add_expression a).2 (g.add_constant f).2)
          rw [h'] at hx
          exact hx
        have hext_c1 : Extends (g.add_constant f).1 g1 :=
          extends_trans (add_expression_static a (g.add_constant f).1).1 hext_a1
        have hstc := add_constant_stable
          (show g.add_constant f = ((g.add_constant f).1, (g.add_constant f).2) from rfl)
          (extends_trans hext_c1 hext)
        have hsta := add_expression_stable a (g.add_constant f).1
          ((g.add_constant f).1.add_expression a).1
          ((g.add_constant f).1.add_expression a).2 g' rfl (extends_trans hext_a1 hext)
        have hcomb : (g'.add_constant f).1.add_expression a =
            (g', ((g.add_constant f).1.add_expression a).2) := by
          rw [hstc]
          exact hsta
        rw [hcomb, hstc]
        exact add_calculation_stable h' hext

theorem new_store_fresh (e : Expression F) :
    findCalculation (.Store ((GraphEvaluator.empty (F := F)).add_expression e).2)
      ((GraphEvaluator.empty (F := F)).add_expression e).1.calculations = none := by
  apply findCalculation_eq_none
  intro ci hci
  obtain ⟨hext, hsh, hlen, htame⟩ := add_expression_static e (GraphEvaluator.empty (F := F))
  rcases htame ci hci with h | ⟨hso, _⟩
  · simp [GraphEvaluator.empty] at h
  · intro hEq
    rcases hsh with ⟨i, hr⟩ | ⟨t, hr⟩
    · rw [hEq, hr] at hso
      simp [storeOnlyColumns] at hso
    · rw [hEq, hr] at hso
      simp [storeOnlyColumns] at hso

theorem new_calcs (e : Expression F) :
    (GraphEvaluator.new e).calculations =
      ((GraphEvaluator.empty (F := F)).add_expression e).1.calculations ++
        [⟨.Store ((GraphEvaluator.empty (F := F)).add_expression e).2,
          ((GraphEvaluator.empty (F := F)).add_expression e).1.num_intermediates⟩] := by
  rcases add_calculation_cases ((GraphEvaluator.empty (F := F)).add_expression e).1
      (.Store ((GraphEvaluator.empty (F := F)).add_expression e).2) with
    ⟨ci, hf, _⟩ | ⟨_, _, _, hk, _, _⟩
  · rw [new_store_fresh e] at hf
    exact Option.noConfusion hf
  · exact hk

theorem evaluate_of_traceInv (getter : GetDataForEval F) (row_index : Nat)
    (g : GraphEvaluator F) (I : List F) (hrow : 0 < getter.row_size)
    (hG : GraphInv g) (hT : TraceInv getter row_index g I)
    {last : CalculationInfo} (hlast : g.calculations.getLast? = some last) :
    g.evaluate getter row_index = some (.ok (I.getD last.target 0)) := by
  unfold GraphEvaluator.evaluate
  rw [resolveRotations_resolved getter row_index g hrow]
  simp only [runCalcs_of_traceInv getter row_index g I hG hT, hlast]

theorem new_sound (getter : GetDataForEval F) (row_index : Nat) (e : Expression F) (v : F)
    (he : e.directEval getter row_index = .ok v) :
    ∃ I, GraphInv (GraphEvaluator.new e) ∧
      TraceInv getter row_index (GraphEvaluator.new e) I ∧
      (0 < getter.row_size →
        (GraphEvaluator.new e).evaluate getter row_index = some (.ok v)) := by
  obtain ⟨hext1, hG1, I1, hI1, hT1, hb1, hv1⟩ :=
    add_expression_sound getter row_index e GraphEvaluator.empty [] v he graphInv_empty
      (traceInv_empty getter row_index)
  obtain ⟨hext2, hG2, I2, hI2, hT2, hb2, hv2⟩ :=
    add_calculation_sem getter row_index ((GraphEvaluator.empty (F := F)).add_expression e).1 I1
      (.Store ((GraphEvaluator.empty (F := F)).add_expression e).2) v hG1 hT1
      (by
        intro vs hvs
        simp only [Calculation.operands, List.mem_cons, List.not_mem_nil, or_false] at hvs
        rcases hvs with rfl
        rw [← hG1.hlen]
        exact hb1)
      (by
        simp only [Calculation.evaluate]
        exact hv1)
  refine ⟨I2, hG2, hT2, ?_⟩
  intro hrow
  rcases add_calculation_cases ((GraphEvaluator.empty (F := F)).add_expression e).1
      (.Store ((GraphEvaluator.empty (F := F)).add_expression e).2) with
    ⟨ci, hf, _⟩ | ⟨_, _, _, hk, _, hres⟩
  · rw [new_store_fresh e] at hf
    exact Option.noConfusion hf
  · have hlast : (GraphEvaluator.new e).calculations.getLast? =
        some ⟨.Store ((GraphEvaluator.empty (F := F)).add_expression e).2,
          ((GraphEvaluator.empty (F := F)).add_expression e).1.num_intermediates⟩ := by
      rw [new_calcs e]
      exact List.getLast?_concat _
    have heval := evaluate_of_traceInv getter row_index (GraphEvaluator.new e) I2 hrow hG2
      hT2 hlast
    rw [heval]
    have hv2' : getValue (resolvedRotations getter row_index (GraphEvaluator.new e))
        (GraphEvaluator.new e).constants I2 getter
        (.Intermediate ((GraphEvaluator.empty (F := F)).add_expression e).1.num_intermediates) =
        .ok v := by
      rw [← hres]
      exact hv2
    simp only [getValue] at hv2'
    injection hv2' with hgd
    rw [hgd]

theorem oracle_ok (row_index : Nat) :
    ∀ (e : Expression F) (n : Nat), e.maxCh ≤ n →
      ∃ v, e.directEval (oracleGetter n) row_index = .ok v := by
  intro e
  induction e with
  | Constant c => exact fun n _ => ⟨c, rfl⟩
  | Polynomial q => exact fun n _ => ⟨0, rfl⟩
  | Challenge i =>
    intro n hn
    simp only [Expression.maxCh] at hn
    refine ⟨0, ?_⟩
    have hget : ((oracleGetter (F := F) n).challenges).get? i = some 0 := by
      show (List.replicate n (0:F)).get? i = some 0
      rw [List.get?_eq_getElem?, List.getElem?_replicate, if_pos (by omega)]
    simp only [Expression.directEval, hget]
  | Negated a ih =>
    intro n hn
    obtain ⟨v, hv⟩ := ih n (by simpa [Expression.maxCh] using hn)
    exact ⟨-v, by simp only [Expression.directEval, hv]⟩
  | Sum a b iha ihb =>
    intro n hn
    simp only [Expression.maxCh, max_le_iff] at hn
    obtain ⟨x, hx⟩ := iha n hn.1
    obtain ⟨y, hy⟩ := ihb n hn.2
    exact ⟨x + y, by simp only [Expression.directEval, hx, hy]⟩
  | Product a b iha ihb =>
    intro n hn
    simp only [Expression.maxCh, max_le_iff] at hn
    obtain ⟨x, hx⟩ := iha n hn.1
    obtain ⟨y, hy⟩ := ihb n hn.2
    exact ⟨x * y, by simp only [Expression.directEval, hx, hy]⟩
  | Scaled a f ih =>
    intro n hn
    obtain ⟨x, hx⟩ := ih n (by simpa [Expression.maxCh] using hn)
    exact ⟨x * f, by simp only [Expression.directEval, hx]⟩

theorem graphInv_new (e : Expression F) : GraphInv (GraphEvaluator.new e) := by
  obtain ⟨v, hv⟩ := oracle_ok 0 e e.maxCh le_rfl
  obtain ⟨I, hG, _, _⟩ := new_sound (oracleGetter e.maxCh) 0 e v hv
  exact hG

theorem graphInv_add_expression_empty (e : Expression F) :
    GraphInv ((GraphEvaluator.empty (F := F)).add_expression e).1 := by
  obtain ⟨v, hv⟩ := oracle_ok 0 e e.maxCh le_rfl
  obtain ⟨_, hG1, _⟩ := add_expression_sound (oracleGetter e.maxCh) 0 e GraphEvaluator.empty
    [] v hv graphInv_empty (traceInv_empty _ 0)
  exact hG1

theorem rotation_wrap (idx : Nat) (rot : Int) (n : Nat) (h : 0 < n) :
    ∃ k, get_rotation_idx idx rot n = some k ∧ k < n ∧
      Int.ModEq (n : Int) (k : Int) ((idx : Int) + rot) := by
  have hne : (n : Int) ≠ 0 := by exact_mod_cast h.ne'
  have h1 : 0 ≤ ((idx : Int) + rot).emod (n : Int) := Int.emod_nonneg _ hne
  have h2 : ((idx : Int) + rot).emod (n : Int) < (n : Int) :=
    Int.emod_lt_of_pos _ (by exact_mod_cast h)
  refine ⟨rotIdx idx rot n, ?_, ?_, ?_⟩
  · rw [get_rotation_idx, if_neg (Nat.pos_iff_ne_zero.mp h)]
  · unfold rotIdx
    omega
  · show (rotIdx idx rot n : Int) % (n : Int) = ((idx : Int) + rot) % (n : Int)
    unfold rotIdx
    rw [Int.toNat_of_nonneg h1]
    exact Int.emod_emod_of_dvd _ dvd_rfl

theorem hornerLoop_foldl (gv : ValueSource → Except EvalError F) (fv : F) :
    ∀ (ps : List ValueSource) (sv : F) (pv : ValueSource → F),
      (∀ p ∈ ps, gv p = .ok (pv p)) →
      hornerLoop gv fv ps sv = .ok (ps.foldl (fun value p => value * fv + pv p) sv) := by
  intro ps
  induction ps with
  | nil => intro sv pv _; rfl
  | cons p rest ih =>
    intro sv pv h
    simp only [hornerLoop, h p (List.mem_cons_self _ _), List.foldl]
    exact ih _ pv fun q hq => h q (List.mem_cons_of_mem _ hq)

theorem new_no_horner (e : Expression F) :
    ∀ ci ∈ (GraphEvaluator.new e).calculations, ci.calculation.isHorner = false := by
  intro ci h
  rw [new_calcs e] at h
  rcases List.mem_append.mp h with h | h
  · obtain ⟨_, _, _, htame⟩ := add_expression_static e (GraphEvaluator.empty (F := F))
    rcases htame ci h with h' | ⟨_, h'⟩
    · simp [GraphEvaluator.empty] at h'
    · exact h'
  · rcases List.mem_singleton.mp h with rfl
    rfl

theorem countMul_add_calculation (g : GraphEvaluator F) (c : Calculation)
    (h : c.isMul = false) : (g.add_calculation c).1.countMul = g.countMul := by
  rcases add_calculation_cases g c with ⟨ci, hf, heq⟩ | ⟨_, _, _, hk, _, _⟩
  · rw [heq]
  · unfold GraphEvaluator.countMul
    rw [hk, List.filter_append]
    simp [List.filter, h]

theorem size_pos (x : Expression F) : 1 ≤ x.size := by
  cases x <;> simp [Expression.size]

theorem add_expression_no_calcs_of_const (s : F) (g' : GraphEvaluator F) :
    (g'.add_expression (.Constant s)).1.calculations.length = g'.calculations.length := by
  obtain ⟨_, _, hk, _, _⟩ := add_constant_spec g' s
  rw [show (g'.add_expression (.Constant s)).1 = (g'.add_constant s).1 from rfl, hk]

theorem recompile_no_new_calcs (y : Expression F) (g0 g' : GraphEvaluator F)
    (hext : Extends (g0.add_expression y).1 g') :
    (g'.add_expression y).1.calculations.length = g'.calculations.length := by
  have hst := add_expression_stable y g0 (g0.add_expression y).1 (g0.add_expression y).2 g'
    rfl hext
  rw [hst]

theorem negated_extends_y (y : Expression F) (g : GraphEvaluator F)
    (hy : ∀ s : F, y ≠ .Constant s) :
    Extends (g.add_expression y).1 (g.add_expression (.Negated y)).1 := by
  rw [add_expression_negated_eq g y hy]
  by_cases h : (g.add_expression y).2 = .Constant 0
  · rw [if_pos h]
    exact extends_refl _
  · rw [if_neg h]
    exact add_calculation_extends _ _

theorem sub_arm_extends (g : GraphEvaluator F) (a bi : Expression F) :
    Extends ((g.add_expression a).1.add_expression bi).1
      (g.add_expression (.Sum a (.Negated bi))).1 := by
  rw [add_expression_sub_eq g a bi]
  by_cases h1 : (g.add_expression a).2 = .Constant 0
  · rw [if_pos h1]
    exact add_calculation_extends _ _
  · rw [if_neg h1]
    by_cases h2 : ((g.add_expression a).1.add_expression bi).2 = .Constant 0
    · rw [if_pos h2]
      exact extends_refl _
    · rw [if_neg h2]
      exact add_calculation_extends _ _

theorem add_calculation_len (g : GraphEvaluator F) (c : Calculation) :
    (g.add_calculation c).1.calculations.length ≤ g.calculations.length + 1 := by
  rcases add_calculation_cases g c with ⟨ci, hf, heq⟩ | ⟨_, _, _, hk, _, _⟩
  · rw [heq]
    exact Nat.le_succ _
  · rw [hk]
    simp

theorem sub_arm_len (g : GraphEvaluator F) (a bi : Expression F) :
    (g.add_expression (.Sum a (.Negated bi))).1.calculations.length ≤
    ((g.add_expression a).1.add_expression bi).1.calculations.length + 1 := by
  rw [add_expression_sub_eq g a bi]
  by_cases h1 : (g.add_expression a).2 = .Constant 0
  · rw [if_pos h1]
    exact add_calculation_len _ _
  · rw [if_neg h1]
    by_cases h2 : ((g.add_expression a).1.add_expression bi).2 = .Constant 0
    · rw [if_pos h2]
      exact Nat.le_add_right _ _
    · rw [if_neg h2]
      exact add_calculation_len _ _

theorem triple_count_general (x : Expression F) (hneg : x.isNegated = false) :
    ((GraphEvaluator.empty (F := F)).add_expression (.Sum (.Sum x x) x)).1.calculations.length ≤
    ((GraphEvaluator.empty (F := F)).add_expression x).1.calculations.length + 2 := by
  have hx2 := add_expression_stable x GraphEvaluator.empty
    ((GraphEvaluator.empty (F := F)).add_expression x).1
    ((GraphEvaluator.empty (F := F)).add_expression x).2
    ((GraphEvaluator.empty (F := F)).add_expression x).1 rfl (extends_refl _)
  have hinner_eq : (GraphEvaluator.empty (F := F)).add_expression (.Sum x x) =
      sumArm ((GraphEvaluator.empty (F := F)).add_expression x).1
        ((GraphEvaluator.empty (F := F)).add_expression x).2
        ((GraphEvaluator.empty (F := F)).add_expression x).2 := by
    rw [add_expression_sum_eq GraphEvaluator.empty x x hneg, hx2]
  have hinner_le : ((GraphEvaluator.empty (F := F)).add_expression
      (.Sum x x)).1.calculations.length ≤
      ((GraphEvaluator.empty (F := F)).add_expression x).1.calculations.length + 1 := by
    rw [hinner_eq]
    exact (static_sumArm _ _ _).2.2.1
  have hext_inner : Extends ((GraphEvaluator.empty (F := F)).add_expression x).1
      ((GraphEvaluator.empty (F := F)).add_expression (.Sum x x)).1 := by
    rw [hinner_eq]
    exact sumArm_extends _ _ _
  have hx3 := add_expression_stable x GraphEvaluator.empty
    ((GraphEvaluator.empty (F := F)).add_expression x).1
    ((GraphEvaluator.empty (F := F)).add_expression x).2
    ((GraphEvaluator.empty (F := F)).add_expression (.Sum x x)).1 rfl hext_inner
  have houter_eq : (GraphEvaluator.empty (F := F)).add_expression (.Sum (.Sum x x) x) =
      sumArm ((GraphEvaluator.empty (F := F)).add_expression (.Sum x x)).1
        ((GraphEvaluator.empty (F := F)).add_expression (.Sum x x)).2
        ((GraphEvaluator.empty (F := F)).add_expression x).2 := by
    rw [add_expression_sum_eq GraphEvaluator.empty (.Sum x x) x hneg, hx3]
  have houter_le : ((GraphEvaluator.empty (F := F)).add_expression
      (.Sum (.Sum x x) x)).1.calculations.length ≤
      ((GraphEvaluator.empty (F := F)).add_expression (.Sum x x)).1.calculations.length + 1 := by
    rw [houter_eq]
    exact (static_sumArm _ _ _).2.2.1
  omega

theorem triple_count_negated (y : Expression F) :
    ((GraphEvaluator.empty (F := F)).add_expression
      (.Sum (.Sum (.Negated y) (.Negated y)) (.Negated y))).1.calculations.length ≤
    ((GraphEvaluator.empty (F := F)).add_expression (.Negated y)).1.calculations.length + 2 := by
  have hyrec : ∀ g' : GraphEvaluator F,
      Extends ((GraphEvaluator.empty (F := F)).add_expression (.Negated y)).1 g' →
      (g'.add_expression y).1.calculations.length = g'.calculations.length := by
    intro g' hext
    by_cases hyc : ∀ s : F, y ≠ .Constant s
    · exact recompile_no_new_calcs y GraphEvaluator.empty g'
        (extends_trans (negated_extends_y y GraphEvaluator.empty hyc) hext)
    · push_neg at hyc
      obtain ⟨s, rfl⟩ := hyc
      exact add_expression_no_calcs_of_const s g'
  have hinner_le : ((GraphEvaluator.empty (F := F)).add_expression
      (.Sum (.Negated y) (.Negated y))).1.calculations.length ≤
      ((GraphEvaluator.empty (F := F)).add_expression (.Negated y)).1.calculations.length
        + 1 := by
    have h1 := sub_arm_len GraphEvaluator.empty (.Negated y) y
    rw [hyrec ((GraphEvaluator.empty (F := F)).add_expression (.Negated y)).1
      (extends_refl _)] at h1
    exact h1
  have hext_inner : Extends ((GraphEvaluator.empty (F := F)).add_expression (.Negated y)).1
      ((GraphEvaluator.empty (F := F)).add_expression
        (.Sum (.Negated y) (.Negated y))).1 :=
    extends_trans (add_expression_static y _).1 (sub_arm_extends GraphEvaluator.empty _ y)
  have houter_le := sub_arm_len GraphEvaluator.empty (.Sum (.Negated y) (.Negated y)) y
  rw [hyrec _ hext_inner] at houter_le
  omega

theorem triple_count (x : Expression F) :
    ((GraphEvaluator.empty (F := F)).add_expression (.Sum (.Sum x x) x)).1.calculations.length ≤
    ((GraphEvaluator.empty (F := F)).add_expression x).1.calculations.length + 2 := by
  cases x with
  | Negated y => exact triple_count_negated y
  | Constant s => exact triple_count_general _ rfl
  | Polynomial q => exact triple_count_general _ rfl
  | Challenge i => exact triple_count_general _ rfl
  | Sum a b => exact triple_count_general _ rfl
  | Product a b => exact triple_count_general _ rfl
  | Scaled a f => exact triple_count_general _ rfl

theorem countMul_new (e : Expression F) :
    (GraphEvaluator.new e).countMul =
      ((GraphEvaluator.empty (F := F)).add_expression e).1.countMul := by
  unfold GraphEvaluator.countMul
  rw [new_calcs e, List.filter_append]
  simp [Calculation.isMul]

theorem add_calculation_mem (g : GraphEvaluator F) (c : Calculation) :
    ∃ t, (⟨c, t⟩ : CalculationInfo) ∈ (g.add_calculation c).1.calculations := by
  rcases add_calculation_cases g c with ⟨ci, hf, heq⟩ | ⟨_, _, _, hk, _, _⟩
  · obtain ⟨hm, hc⟩ := findCalculation_some hf
    refine ⟨ci.target, ?_⟩
    rw [heq]
    have : (⟨c, ci.target⟩ : CalculationInfo) = ci := by
      cases ci with
      | mk cc tt => cases hc; rfl
    rw [this]
    exact hm
  · refine ⟨g.num_intermediates, ?_⟩
    rw [hk]
    exact List.mem_append_right _ (List.mem_singleton.mpr rfl)

theorem listPosition_cons_ne {α : Type} [DecidableEq α] {x y : α} (h : y ≠ x)
    (ys : List α) :
    listPosition x (y :: ys) = (listPosition x ys).map fun i => i + 1 := by
  show (if y = x then some 0 else (listPosition x ys).map fun i => i + 1) = _
  rw [if_neg h]

theorem listPosition_cons_self {α : Type} [DecidableEq α] (x : α) (ys : List α) :
    listPosition x (x :: ys) = some 0 := by
  show (if x = x then some 0 else (listPosition x ys).map fun i => i + 1) = some 0
  rw [if_pos rfl]

/-- C5: the evaluator resolves each rotation offset at a row as the Euclidean
remainder of `row_index + offset` by the table length: for a positive table
length the resolved row exists, is strictly below the table length and is
congruent to `row_index + offset` modulo the table length, and the rotation
table of a graph resolves elementwise this way; in particular on a 2-row
table, rotation -1 at row 1 resolves to row 0 and rotation +2 at row 0
resolves to row 0. -/
theorem spec_c5 (idx : Nat) (rot : Int) (n : Nat) (h : 0 < n) :
    (∃ k, get_rotation_idx idx rot n = some k ∧ k < n ∧
      Int.ModEq (n : Int) (k : Int) ((idx : Int) + rot)) ∧
    (∀ rots : List Int,
      resolveRotations idx n rots = some (rots.map fun r => rotIdx idx r n)) ∧
    get_rotation_idx 1 (-1) 2 = some 0 ∧
    get_rotation_idx 0 2 2 = some 0 := by
  exact ⟨rotation_wrap idx rot n h, resolveRotations_pos idx n h, by decide, by decide⟩

theorem spec_c5_witness :
    0 < 2 ∧ ∃ k, get_rotation_idx 1 (-1) 2 = some k ∧ k < 2 ∧
      Int.ModEq (2 : Int) (k : Int) ((1 : Int) + (-1)) :=
  ⟨by decide, (spec_c5 1 (-1) 2 (by decide)).1⟩

/-- C8: in every compiled graph the number of intermediate slots equals the
number of calculations, the calculation at position `k` targets slot `k`, any
intermediate operand of the calculation at position `k` refers to a strictly
earlier position, and every operand is in bounds for the pools and for the
slots already written. -/
theorem spec_c8 (e : Expression F) :
    (GraphEvaluator.new e).num_intermediates = (GraphEvaluator.new e).calculations.length ∧
    (∀ k ci, (GraphEvaluator.new e).calculations.get? k = some ci → ci.target = k) ∧
    (∀ k ci, (GraphEvaluator.new e).calculations.get? k = some ci →
      ∀ vs ∈ ci.calculation.operands, ∀ j, vs = .Intermediate j → j < k) ∧
    (∀ k ci, (GraphEvaluator.new e).calculations.get? k = some ci →
      ∀ vs ∈ ci.calculation.operands,
        vsBounded (GraphEvaluator.new e).constants.length
          (GraphEvaluator.new e).rotations.length k vs) := by
  obtain hG := graphInv_new e
  refine ⟨hG.hlen, hG.htargets, ?_, hG.hbound⟩
  intro k ci h vs hvs j hj
  have hb := hG.hbound k ci h vs hvs
  rw [hj] at hb
  simpa [vsBounded] using hb

theorem spec_c8_witness :
    ((GraphEvaluator.new (Expression.Challenge 0 : Expression (ZMod 101))).calculations.get? 0 =
      some ⟨.Store (.Challenge 0), 0⟩) ∧
    (⟨Calculation.Store (.Challenge 0), (0 : Nat)⟩ : CalculationInfo).target = 0 :=
  ⟨by decide,
    (spec_c8 (Expression.Challenge 0 : Expression (ZMod 101))).2.1 0
      ⟨.Store (.Challenge 0), 0⟩ (by decide)⟩

/-- C9: executing a Horner calculation folds the coefficients left to right as
`value = value * factor + coefficient` starting from the start value, one
multiply-add per coefficient; and the compiler never emits a Horner
calculation for any input expression. -/
theorem spec_c9 (rot : List Nat) (con I : List F) (getter : GetDataForEval F)
    (s f : ValueSource) (ps : List ValueSource) (sv fv : F) (pv : ValueSource → F)
    (e : Expression F)
    (hs : getValue rot con I getter s = .ok sv)
    (hf : getValue rot con I getter f = .ok fv)
    (hp : ∀ p ∈ ps, getValue rot con I getter p = .ok (pv p)) :
    (Calculation.evaluate rot con I getter (.Horner s ps f) =
      .ok (ps.foldl (fun value p => value * fv + pv p) sv)) ∧
    (∀ ci ∈ (GraphEvaluator.new e).calculations, ci.calculation.isHorner = false) := by
  constructor
  · simp only [Calculation.evaluate, hf, hs]
    exact hornerLoop_foldl _ fv ps sv pv hp
  · exact new_no_horner e

theorem spec_c9_witness :
    (getValue [] [(3 : ZMod 101)] [] (oracleGetter 0) (.Constant 0) = .ok 3) ∧
    (∀ p ∈ [ValueSource.Constant 0], getValue [] [(3 : ZMod 101)] [] (oracleGetter 0) p =
      .ok ((fun _ => (3 : ZMod 101)) p)) ∧
    (Calculation.evaluate [] [(3 : ZMod 101)] [] (oracleGetter 0) (.Horner (.Constant 0)
        [.Constant 0] (.Constant 0)) =
      .ok ([ValueSource.Constant 0].foldl (fun value p => value * (3 : ZMod 101) +
        (fun _ => (3 : ZMod 101)) p) (3 : ZMod 101))) :=
  ⟨by decide, by decide,
    (spec_c9 [] [(3 : ZMod 101)] [] (oracleGetter 0) (.Constant 0) (.Constant 0)
      [.Constant 0] 3 3 (fun _ => (3 : ZMod 101)) (Expression.Challenge 0)
      (by decide) (by decide) (by decide)).1⟩

/-- C10: with a reported table row count of zero and a non-empty rotation
table, `evaluate` hits the division-by-zero panic of `rem_euclid` (the `none`
of the embedding) instead of returning a typed error; for every strictly
positive row count the resolution is total and lands strictly below the row
count. -/
theorem spec_c10 (getter : GetDataForEval F) (row_index : Nat) (g : GraphEvaluator F)
    (h0 : getter.row_size = 0) (hne : g.rotations ≠ []) :
    (g.evaluate getter row_index = none) ∧
    (∀ (idx : Nat) (rot : Int) (n : Nat), 0 < n →
      ∃ k, get_rotation_idx idx rot n = some k ∧ k < n) := by
  constructor
  · obtain ⟨r, rest, hr⟩ := List.exists_cons_of_ne_nil hne
    unfold GraphEvaluator.evaluate
    rw [hr, h0]
    simp [resolveRotations, get_rotation_idx]
  · intro idx rot n hn
    obtain ⟨k, hk, hlt, _⟩ := rotation_wrap idx rot n hn
    exact ⟨k, hk, hlt⟩

theorem spec_c10_witness :
    (({ challenges := [], fixed := [], eval_column_var := fun _ _ => .ok 0,
        row_size := 0 } : GetDataForEval (ZMod 101)).row_size = 0) ∧
    (({ constants := [0, 1, 2], rotations := [1], num_intermediates := 0,
        calculations := [] } : GraphEvaluator (ZMod 101)).rotations ≠ []) ∧
    (({ constants := [0, 1, 2], rotations := [1], num_intermediates := 0,
        calculations := [] } : GraphEvaluator (ZMod 101)).evaluate
      { challenges := [], fixed := [], eval_column_var := fun _ _ => .ok 0,
        row_size := 0 } 0 = none) :=
  ⟨by decide, by decide,
    (spec_c10
      ({ challenges := [], fixed := [], eval_column_var := fun _ _ => .ok 0,
         row_size := 0 } : GetDataForEval (ZMod 101))
      0
      ({ constants := [0, 1, 2], rotations := [1], num_intermediates := 0,
         calculations := [] } : GraphEvaluator (ZMod 101)) (by decide) (by decide)).1⟩

/-- C7: `evaluate` returns the value of the last calculation's slot and
returns zero without crashing on a calculation-free graph; through the
compile entry point the calculation list is never empty and always ends in a
store of the whole expression's resulting value reference, targeting the next
slot after the compiled body. -/
theorem spec_c7 (getter : GetDataForEval F) (row_index : Nat) (g : GraphEvaluator F)
    (e : Expression F) (hk : g.calculations = []) (hrow : 0 < getter.row_size) :
    (g.evaluate getter row_index = some (.ok 0)) ∧
    ((GraphEvaluator.new e).calculations ≠ []) ∧
    ((GraphEvaluator.new e).calculations.getLast? =
      some ⟨.Store ((GraphEvaluator.empty (F := F)).add_expression e).2,
        ((GraphEvaluator.empty (F := F)).add_expression e).1.calculations.length⟩) := by
  refine ⟨?_, ?_, ?_⟩
  · unfold GraphEvaluator.evaluate
    rw [resolveRotations_pos row_index getter.row_size hrow g.rotations, hk]
    rfl
  · rw [new_calcs e]
    simp
  · rw [new_calcs e, (graphInv_add_expression_empty e).hlen]
    exact List.getLast?_concat _

theorem spec_c7_witness :
    (({ constants := [0, 1, 2], rotations := [], num_intermediates := 0,
        calculations := [] } : GraphEvaluator (ZMod 101)).calculations = []) ∧
    (0 < (oracleGetter (F := ZMod 101) 0).row_size) ∧
    (({ constants := [0, 1, 2], rotations := [], num_intermediates := 0,
        calculations := [] } : GraphEvaluator (ZMod 101)).evaluate (oracleGetter 0) 0 =
      some (.ok 0)) ∧
    ((GraphEvaluator.new (Expression.Constant (7 : ZMod 101))).calculations ≠ []) :=
  ⟨rfl, by decide,
    (spec_c7 (oracleGetter 0) 0
      ({ constants := [0, 1, 2], rotations := [], num_intermediates := 0,
         calculations := [] } : GraphEvaluator (ZMod 101))
      (Expression.Constant 7) rfl (by decide)).1,
    (spec_c7 (oracleGetter 0) 0
      ({ constants := [0, 1, 2], rotations := [], num_intermediates := 0,
         calculations := [] } : GraphEvaluator (ZMod 101))
      (Expression.Constant 7) rfl (by decide)).2.1⟩

/-- C6: a challenge reference with an index at or beyond the supplied
challenge count evaluates to a challenge-bounds error carrying the index and
the available count; a fixed reference naming an absent column gives a
column-bounds error and one whose resolved row is absent gives a row-bounds
error; an erroring calculation aborts the run immediately with that error,
and the whole-row evaluation returns it to the caller. -/
theorem spec_c6 (getter : GetDataForEval F) (i c rr row : Nat)
    (rot : List Nat) (con I col : List F)
    (ci : CalculationInfo) (rest : List CalculationInfo) (err : EvalError) :
    (getter.challenges.length ≤ i →
      getValue rot con I getter (.Challenge i) =
        .error (.ChallengeIndexOutOfBoundary i getter.challenges.length)) ∧
    (getter.fixed.length ≤ c →
      getValue rot con I getter (.Fixed c rr) =
        .error (.ColumnVariableIndexOutOfBoundary c)) ∧
    (getter.fixed.get? c = some col → col.length ≤ rot.getD rr 0 →
      getValue rot con I getter (.Fixed c rr) =
        .error (.RowIndexOutOfBoundary (rot.getD rr 0))) ∧
    (ci.calculation.evaluate rot con I getter = .error err →
      runCalcs rot con getter (ci :: rest) I = .error err) ∧
    (getter.challenges.length ≤ i →
      (GraphEvaluator.new (.Challenge i : Expression F)).evaluate getter row =
        some (.error (.ChallengeIndexOutOfBoundary i getter.challenges.length))) := by
  refine ⟨?_, ?_, ?_, ?_, ?_⟩
  · intro h
    simp only [getValue, List.get?_eq_none.mpr h]
  · intro h
    simp only [getValue, List.get?_eq_none.mpr h]
  · intro h1 h2
    simp only [getValue, h1, List.get?_eq_none.mpr h2]
  · intro h
    simp only [runCalcs, h]
  · intro h
    have hg : GraphEvaluator.new (.Challenge i : Expression F) =
        { constants := [0, 1, 2], rotations := [], num_intermediates := 2,
          calculations := [⟨.Store (.Challenge i), 0⟩, ⟨.Store (.Intermediate 0), 1⟩] } := by
      simp [GraphEvaluator.new, GraphEvaluator.add_expression, GraphEvaluator.add_calculation,
        findCalculation, GraphEvaluator.empty]
    rw [hg]
    simp only [GraphEvaluator.evaluate, resolveRotations, runCalcs, Calculation.evaluate,
      getValue, List.get?_eq_none.mpr h]

theorem spec_c6_witness :
    ((oracleGetter (F := ZMod 101) 0).challenges.length ≤ 0) ∧
    ((GraphEvaluator.new (Expression.Challenge 0 : Expression (ZMod 101))).evaluate
        (oracleGetter 0) 0 = some (.error (.ChallengeIndexOutOfBoundary 0 0))) :=
  ⟨by decide,
    (spec_c6 (oracleGetter (F := ZMod 101) 0) 0 0 0 0 [] [] [] []
      ⟨.Store (.Constant 0), 0⟩ [] (.RowIndexOutOfBoundary 0)).2.2.2.2 (by decide)⟩

/-- C1: for every expression, every collaborator and row on which the direct
recursive evaluation of the tree succeeds (and a positive row count, without
which rotation resolution panics), evaluating the compiled graph returns the
same value as the direct evaluation; in particular the scenario
`(advice0 + advice1 + advice1) * (fixed0 + advice0)` over advice columns
`[[a0, a1], [b0, b1]]` and fixed column `[[f0, f1]]` at row 0 evaluates to
`(a0 + b0 + b0) * (f0 + a0)`. -/
theorem spec_c1 (getter : GetDataForEval F) (row_index : Nat) (e : Expression F) (v : F)
    (hrow : 0 < getter.row_size) (he : e.directEval getter row_index = .ok v) :
    ((GraphEvaluator.new e).evaluate getter row_index = some (.ok v)) ∧
    (∀ a0 a1 b0 b1 f0 f1 : F,
      (GraphEvaluator.new (scenarioExpr (F := F))).evaluate
        (scenarioGetter a0 a1 b0 b1 f0 f1) 0 = some (.ok ((a0 + b0 + b0) * (f0 + a0)))) := by
  constructor
  · obtain ⟨I, _, _, himp⟩ := new_sound getter row_index e v he
    exact himp hrow
  · intro a0 a1 b0 b1 f0 f1
    have hr : rotIdx 0 0 2 = 0 := by decide
    have hde : (scenarioExpr (F := F)).directEval (scenarioGetter a0 a1 b0 b1 f0 f1) 0 =
        .ok ((a0 + b0 + b0) * (f0 + a0)) := by
      simp [Expression.directEval, scenarioExpr, scenarioGetter, hr]
    obtain ⟨I, _, _, himp⟩ := new_sound (scenarioGetter a0 a1 b0 b1 f0 f1) 0 scenarioExpr
      ((a0 + b0 + b0) * (f0 + a0)) hde
    exact himp (by simp [scenarioGetter])

theorem spec_c1_witness :
    (0 < (scenarioGetter (3 : ZMod 101) 5 7 11 13 17).row_size) ∧
    ((scenarioExpr (F := ZMod 101)).directEval (scenarioGetter 3 5 7 11 13 17) 0 =
      .ok 70) ∧
    ((GraphEvaluator.new (scenarioExpr (F := ZMod 101))).evaluate
      (scenarioGetter 3 5 7 11 13 17) 0 = some (.ok 70)) :=
  ⟨by decide, by decide,
    (spec_c1 (scenarioGetter (3 : ZMod 101) 5 7 11 13 17) 0 scenarioExpr 70 (by decide)
      (by decide)).1⟩

/-- C4: re-inserting a calculation equal to an existing one returns the
existing slot and appends nothing, no compiled graph contains two equal
calculations, and the triple-use expression `x + x + x` (three separate
copies of the sub-tree) compiles to strictly fewer calculation nodes than the
tree's node count while still evaluating to three times the value of `x`. -/
theorem spec_c4 (getter : GetDataForEval F) (row_index : Nat) (g : GraphEvaluator F)
    (c : Calculation) (x : Expression F) (v : F)
    (hrow : 0 < getter.row_size) (hx : x.directEval getter row_index = .ok v) :
    ((g.add_calculation c).1.add_calculation c = g.add_calculation c) ∧
    ((GraphEvaluator.new x).calculations.Pairwise
      fun c1 c2 => c1.calculation ≠ c2.calculation) ∧
    ((GraphEvaluator.new (.Sum (.Sum x x) x)).calculations.length <
      (Expression.Sum (.Sum x x) x : Expression F).size) ∧
    ((GraphEvaluator.new (.Sum (.Sum x x) x)).evaluate getter row_index =
      some (.ok (v + v + v))) := by
  refine ⟨?_, ?_, ?_, ?_⟩
  · have h : g.add_calculation c = ((g.add_calculation c).1, (g.add_calculation c).2) := rfl
    exact add_calculation_stable h (extends_refl _)
  · exact (graphInv_new x).hnodup
  · have h1 := triple_count x
    have h2 : ((GraphEvaluator.empty (F := F)).add_expression x).1.calculations.length ≤
        x.size := by
      have h := (add_expression_static x (GraphEvaluator.empty (F := F))).2.2.1
      simpa [GraphEvaluator.empty] using h
    have h3 : (GraphEvaluator.new (.Sum (.Sum x x) x : Expression F)).calculations.length =
        ((GraphEvaluator.empty (F := F)).add_expression
          (.Sum (.Sum x x) x)).1.calculations.length + 1 := by
      rw [new_calcs]
      simp
    have h4 := size_pos x
    have h5 : (Expression.Sum (.Sum x x) x : Expression F).size =
        x.size + x.size + 1 + x.size + 1 := rfl
    omega
  · have hde : (Expression.Sum (.Sum x x) x : Expression F).directEval getter row_index =
        .ok (v + v + v) := by
      simp only [Expression.directEval, hx]
    obtain ⟨I, _, _, himp⟩ := new_sound getter row_index (.Sum (.Sum x x) x) (v + v + v) hde
    exact himp hrow

theorem spec_c4_witness :
    (0 < (oracleGetter (F := ZMod 101) 1).row_size) ∧
    ((Expression.Challenge 0 : Expression (ZMod 101)).directEval (oracleGetter 1) 0 =
      .ok 0) ∧
    (let e : Expression (ZMod 101) :=
      .Sum (.Sum (.Challenge 0) (.Challenge 0)) (.Challenge 0)
     (GraphEvaluator.new e).calculations.length < e.size) ∧
    ((GraphEvaluator.new (Expression.Sum
        (.Sum (.Challenge 0) (.Challenge 0)) (.Challenge 0) : Expression (ZMod 101))).evaluate
      (oracleGetter 1) 0 = some (.ok (0 + 0 + 0))) :=
  ⟨by decide, by decide,
    (spec_c4 (oracleGetter (F := ZMod 101) 1) 0 GraphEvaluator.empty
      (.Negate (.Constant 0)) (.Challenge 0) 0 (by decide) (by decide)).2.2.1,
    (spec_c4 (oracleGetter (F := ZMod 101) 1) 0 GraphEvaluator.empty
      (.Negate (.Constant 0)) (.Challenge 0) 0 (by decide) (by decide)).2.2.2⟩

/-- C2: the Product arm applies, in order: zero shortcut, one shortcuts,
double on two, square on identical references, multiply in canonical order;
consequently `a * 0` evaluates to zero, `a * 1` to `a`'s value, `a * 2` to
that value doubled, `-0` compiles to the zero constant, and — provided `a`'s
compiled reference is not the zero or one constant — `a * 2` compiles to a
double instruction on `a`'s reference and adds no multiply instruction. -/
theorem spec_c2 (getter : GetDataForEval F) (row_index : Nat) (g' : GraphEvaluator F)
    (ra rb : ValueSource) (a : Expression F) (va : F)
    (hrow : 0 < getter.row_size) (ha : a.directEval getter row_index = .ok va)
    (h20 : (2 : F) ≠ 0) (h21 : (2 : F) ≠ 1) :
    (ra = .Constant 0 ∨ rb = .Constant 0 → productArm g' ra rb = (g', .Constant 0)) ∧
    (¬(ra = .Constant 0 ∨ rb = .Constant 0) → ra = .Constant 1 →
      productArm g' ra rb = (g', rb)) ∧
    (¬(ra = .Constant 0 ∨ rb = .Constant 0) → ra ≠ .Constant 1 → rb = .Constant 1 →
      productArm g' ra rb = (g', ra)) ∧
    (¬(ra = .Constant 0 ∨ rb = .Constant 0) → ra ≠ .Constant 1 → rb ≠ .Constant 1 →
      ra = .Constant 2 → productArm g' ra rb = g'.add_calculation (.Double rb)) ∧
    (¬(ra = .Constant 0 ∨ rb = .Constant 0) → ra ≠ .Constant 1 → rb ≠ .Constant 1 →
      ra ≠ .Constant 2 → rb = .Constant 2 →
      productArm g' ra rb = g'.add_calculation (.Double ra)) ∧
    (¬(ra = .Constant 0 ∨ rb = .Constant 0) → ra ≠ .Constant 1 → rb ≠ .Constant 1 →
      ra ≠ .Constant 2 → rb ≠ .Constant 2 → ra = rb →
      productArm g' ra rb = g'.add_calculation (.Square ra)) ∧
    (¬(ra = .Constant 0 ∨ rb = .Constant 0) → ra ≠ .Constant 1 → rb ≠ .Constant 1 →
      ra ≠ .Constant 2 → rb ≠ .Constant 2 → ra ≠ rb → vsLe ra rb = true →
      productArm g' ra rb = g'.add_calculation (.Mul ra rb)) ∧
    (¬(ra = .Constant 0 ∨ rb = .Constant 0) → ra ≠ .Constant 1 → rb ≠ .Constant 1 →
      ra ≠ .Constant 2 → rb ≠ .Constant 2 → ra ≠ rb → vsLe ra rb = false →
      productArm g' ra rb = g'.add_calculation (.Mul rb ra)) ∧
    ((GraphEvaluator.new (.Product a (.Constant 0))).evaluate getter row_index =
      some (.ok 0)) ∧
    ((GraphEvaluator.new (.Product a (.Constant 1))).evaluate getter row_index =
      some (.ok va)) ∧
    ((GraphEvaluator.new (.Product a (.Constant 2))).evaluate getter row_index =
      some (.ok (va + va))) ∧
    (((GraphEvaluator.empty (F := F)).add_expression a).2 ≠ .Constant 0 →
      ((GraphEvaluator.empty (F := F)).add_expression a).2 ≠ .Constant 1 →
      (∃ t, (⟨.Double ((GraphEvaluator.empty (F := F)).add_expression a).2, t⟩ :
        CalculationInfo) ∈ (GraphEvaluator.new (.Product a (.Constant 2))).calculations) ∧
      (GraphEvaluator.new (.Product a (.Constant 2))).countMul =
        ((GraphEvaluator.empty (F := F)).add_expression a).1.countMul) ∧
    (((GraphEvaluator.empty (F := F)).add_expression (.Negated (.Constant 0))).2 =
      .Constant 0) := by
  refine ⟨?_, ?_, ?_, ?_, ?_, ?_, ?_, ?_, ?_, ?_, ?_, ?_, ?_⟩
  · intro h
    unfold productArm
    rw [if_pos h]
  · intro h0 h1
    unfold productArm
    rw [if_neg h0, if_pos h1]
  · intro h0 h1 h2
    unfold productArm
    rw [if_neg h0, if_neg h1, if_pos h2]
  · intro h0 h1 h2 h3
    unfold productArm
    rw [if_neg h0, if_neg h1, if_neg h2, if_pos h3]
  · intro h0 h1 h2 h3 h4
    unfold productArm
    rw [if_neg h0, if_neg h1, if_neg h2, if_neg h3, if_pos h4]
  · intro h0 h1 h2 h3 h4 h5
    unfold productArm
    rw [if_neg h0, if_neg h1, if_neg h2, if_neg h3, if_neg h4, if_pos h5]
  · intro h0 h1 h2 h3 h4 h5 h6
    unfold productArm
    rw [if_neg h0, if_neg h1, if_neg h2, if_neg h3, if_neg h4, if_neg h5, if_pos h6]
  · intro h0 h1 h2 h3 h4 h5 h6
    unfold productArm
    rw [if_neg h0, if_neg h1, if_neg h2, if_neg h3, if_neg h4, if_neg h5,
      if_neg (by simp [h6])]
  · have hde : (.Product a (.Constant 0) : Expression F).directEval getter row_index =
        .ok (va * 0) := by
      simp only [Expression.directEval, ha]
    obtain ⟨I, _, _, himp⟩ := new_sound getter row_index (.Product a (.Constant 0))
      (va * 0) hde
    have h := himp hrow
    rw [mul_zero] at h
    exact h
  · have hde : (.Product a (.Constant 1) : Expression F).directEval getter row_index =
        .ok (va * 1) := by
      simp only [Expression.directEval, ha]
    obtain ⟨I, _, _, himp⟩ := new_sound getter row_index (.Product a (.Constant 1))
      (va * 1) hde
    have h := himp hrow
    rw [mul_one] at h
    exact h
  · have hde : (.Product a (.Constant 2) : Expression F).directEval getter row_index =
        .ok (va * 2) := by
      simp only [Expression.directEval, ha]
    obtain ⟨I, _, _, himp⟩ := new_sound getter row_index (.Product a (.Constant 2))
      (va * 2) hde
    have h := himp hrow
    rw [mul_two] at h
    exact h
  · intro ha0 ha1
    obtain ⟨⟨d, hd⟩, _, _⟩ := (add_expression_static a (GraphEvaluator.empty (F := F))).1
    have hpos : listPosition (2 : F)
        ((GraphEvaluator.empty (F := F)).add_expression a).1.constants = some 2 := by
      rw [hd]
      show listPosition (2 : F) ((0 : F) :: (1 : F) :: (2 : F) :: d) = some 2
      rw [listPosition_cons_ne (fun h => h20 h.symm), listPosition_cons_ne
        (fun h => h21 h.symm), listPosition_cons_self]
      rfl
    have hc2 : ((GraphEvaluator.empty (F := F)).add_expression a).1.add_expression
        (.Constant 2) = (((GraphEvaluator.empty (F := F)).add_expression a).1,
          .Constant 2) := by
      show ((GraphEvaluator.empty (F := F)).add_expression a).1.add_constant 2 = _
      unfold GraphEvaluator.add_constant
      rw [hpos]
    have hprod : (GraphEvaluator.empty (F := F)).add_expression (.Product a (.Constant 2)) =
        productArm ((GraphEvaluator.empty (F := F)).add_expression a).1
          ((GraphEvaluator.empty (F := F)).add_expression a).2 (.Constant 2) := by
      rw [add_expression_product_eq, hc2]
    have harm : productArm ((GraphEvaluator.empty (F := F)).add_expression a).1
        ((GraphEvaluator.empty (F := F)).add_expression a).2 (.Constant 2) =
        ((GraphEvaluator.empty (F := F)).add_expression a).1.add_calculation
          (.Double ((GraphEvaluator.empty (F := F)).add_expression a).2) := by
      unfold productArm
      rw [if_neg (fun h => h.elim ha0 fun h' => absurd h' (by decide)), if_neg ha1,
        if_neg (show ¬(ValueSource.Constant 2 = .Constant 1) by decide)]
      by_cases hr2 : ((GraphEvaluator.empty (F := F)).add_expression a).2 = .Constant 2
      · rw [if_pos hr2, hr2]
      · rw [if_neg hr2, if_pos rfl]
    constructor
    · obtain ⟨t, ht⟩ := add_calculation_mem
        ((GraphEvaluator.empty (F := F)).add_expression a).1
        (.Double ((GraphEvaluator.empty (F := F)).add_expression a).2)
      refine ⟨t, ?_⟩
      rw [new_calcs]
      apply List.mem_append_left
      rw [hprod, harm]
      exact ht
    · rw [countMul_new, hprod, harm,
        countMul_add_calculation ((GraphEvaluator.empty (F := F)).add_expression a).1
          (.Double ((GraphEvaluator.empty (F := F)).add_expression a).2) rfl]
  · show ((GraphEvaluator.empty (F := F)).add_constant (-(0 : F))).2 = .Constant 0
    rw [neg_zero]
    have h0 : listPosition (0 : F) (GraphEvaluator.empty (F := F)).constants = some 0 := by
      show listPosition (0 : F) ((0 : F) :: [1, 2]) = some 0
      exact listPosition_cons_self _ _
    simp only [GraphEvaluator.add_constant, h0]

theorem spec_c2_counterexample :
    ((GraphEvaluator.new (Expression.Product (Expression.Constant (0 : ZMod 101))
      (Expression.Constant 2))).calculations = [⟨.Store (.Constant 0), 0⟩]) ∧
    (((GraphEvaluator.new (Expression.Product (Expression.Constant (0 : ZMod 101))
      (Expression.Constant 2))).calculations.filter
        fun ci => ci.calculation.isDouble).length = 0) := by
  exact ⟨by decide, by decide⟩

theorem spec_c2_witness :
    (0 < (oracleGetter (F := ZMod 101) 1).row_size) ∧
    ((Expression.Challenge 0 : Expression (ZMod 101)).directEval (oracleGetter 1) 0 =
      .ok 0) ∧
    ((2 : ZMod 101) ≠ 0) ∧ ((2 : ZMod 101) ≠ 1) ∧
    ((GraphEvaluator.new (Expression.Product (.Challenge 0)
        (.Constant 2) : Expression (ZMod 101))).evaluate (oracleGetter 1) 0 =
      some (.ok (0 + 0))) :=
  ⟨by decide, by decide, by decide, by decide,
    (spec_c2 (oracleGetter (F := ZMod 101) 1) 0 GraphEvaluator.empty (.Constant 5)
      (.Constant 7) (.Challenge 0) 0 (by decide) (by decide) (by decide)
      (by decide)).2.2.2.2.2.2.2.2.2.2.1⟩

/-- C3: compiling a sum or product with the operands swapped gives identical
evaluation results; and the swapped node collapses to the already-compiled
node — recompiling `Sum b a` (when neither operand is a negation, so the
general canonical-order arm applies) or `Product b a` into the graph that
already holds `Sum a b` (resp. `Product a b`) returns the same graph and the
same value reference, adding no node, by the canonical total order on value
references. -/
theorem spec_c3 (getter : GetDataForEval F) (row_index : Nat) (a b : Expression F)
    (va vb : F) (g g1 : GraphEvaluator F) (r : ValueSource) :
    (0 < getter.row_size → a.directEval getter row_index = .ok va →
      b.directEval getter row_index = .ok vb →
      ((GraphEvaluator.new (.Sum a b)).evaluate getter row_index =
        some (.ok (va + vb))) ∧
      ((GraphEvaluator.new (.Sum b a)).evaluate getter row_index =
        some (.ok (va + vb))) ∧
      ((GraphEvaluator.new (.Product a b)).evaluate getter row_index =
        some (.ok (va * vb))) ∧
      ((GraphEvaluator.new (.Product b a)).evaluate getter row_index =
        some (.ok (va * vb)))) ∧
    (a.isNegated = false → b.isNegated = false →
      g.add_expression (.Sum a b) = (g1, r) → g1.add_expression (.Sum b a) = (g1, r)) ∧
    (g.add_expression (.Product a b) = (g1, r) →
      g1.add_expression (.Product b a) = (g1, r)) := by
  refine ⟨?_, ?_, ?_⟩
  · intro hrow ha hb
    refine ⟨?_, ?_, ?_, ?_⟩
    · have hde : (.Sum a b : Expression F).directEval getter row_index = .ok (va + vb) := by
        simp only [Expression.directEval, ha, hb]
      obtain ⟨I, _, _, himp⟩ := new_sound getter row_index (.Sum a b) (va + vb) hde
      exact himp hrow
    · have hde : (.Sum b a : Expression F).directEval getter row_index = .ok (vb + va) := by
        simp only [Expression.directEval, ha, hb]
      obtain ⟨I, _, _, himp⟩ := new_sound getter row_index (.Sum b a) (vb + va) hde
      have h := himp hrow
      rw [add_comm vb va] at h
      exact h
    · have hde : (.Product a b : Expression F).directEval getter row_index =
          .ok (va * vb) := by
        simp only [Expression.directEval, ha, hb]
      obtain ⟨I, _, _, himp⟩ := new_sound getter row_index (.Product a b) (va * vb) hde
      exact himp hrow
    · have hde : (.Product b a : Expression F).directEval getter row_index =
          .ok (vb * va) := by
        simp only [Expression.directEval, ha, hb]
      obtain ⟨I, _, _, himp⟩ := new_sound getter row_index (.Product b a) (vb * va) hde
      have h := himp hrow
      rw [mul_comm vb va] at h
      exact h
  · intro hna hnb h
    rw [add_expression_sum_eq g a b hnb] at h
    have hext_b : Extends ((g.add_expression a).1.add_expression b).1 g1 := by
      have hx := sumArm_extends ((g.add_expression a).1.add_expression b).1
        (g.add_expression a).2 ((g.add_expression a).1.add_expression b).2
      rw [h] at hx
      exact hx
    have hext_a : Extends (g.add_expression a).1 g1 :=
      extends_trans (add_expression_static b _).1 hext_b
    have hstb := add_expression_stable b (g.add_expression a).1
      ((g.add_expression a).1.add_expression b).1
      ((g.add_expression a).1.add_expression b).2 g1 rfl hext_b
    have hsta := add_expression_stable a g (g.add_expression a).1
      (g.add_expression a).2 g1 rfl hext_a
    rw [add_expression_sum_eq g1 b a hna]
    have hcomb : (g1.add_expression b).1.add_expression a =
        (g1, (g.add_expression a).2) := by
      rw [hstb]
      exact hsta
    rw [hcomb, hstb]
    show sumArm g1 ((g.add_expression a).1.add_expression b).2 (g.add_expression a).2 =
      (g1, r)
    rw [sumArm_swap]
    exact sumArm_stable h (extends_refl g1)
  · intro h
    rw [add_expression_product_eq g a b] at h
    have hext_b : Extends ((g.add_expression a).1.add_expression b).1 g1 := by
      have hx := productArm_extends ((g.add_expression a).1.add_expression b).1
        (g.add_expression a).2 ((g.add_expression a).1.add_expression b).2
      rw [h] at hx
      exact hx
    have hext_a : Extends (g.add_expression a).1 g1 :=
      extends_trans (add_expression_static b _).1 hext_b
    have hstb := add_expression_stable b (g.add_expression a).1
      ((g.add_expression a).1.add_expression b).1
      ((g.add_expression a).1.add_expression b).2 g1 rfl hext_b
    have hsta := add_expression_stable a g (g.add_expression a).1
      (g.add_expression a).2 g1 rfl hext_a
    rw [add_expression_product_eq g1 b a]
    have hcomb : (g1.add_expression b).1.add_expression a =
        (g1, (g.add_expression a).2) := by
      rw [hstb]
      exact hsta
    rw [hcomb, hstb]
    show productArm g1 ((g.add_expression a).1.add_expression b).2
      (g.add_expression a).2 = (g1, r)
    rw [productArm_swap]
    exact productArm_stable h (extends_refl g1)

theorem spec_c3_counterexample :
    (GraphEvaluator.new (Expression.Sum (.Challenge 0)
        (.Negated (.Challenge 1)) : Expression (ZMod 101))).calculations.length ≠
    (GraphEvaluator.new (Expression.Sum (.Negated (.Challenge 1))
        (.Challenge 0) : Expression (ZMod 101))).calculations.length := by
  decide

theorem spec_c3_witness :
    (0 < (⟨[(4 : ZMod 101), 9], [], fun _ _ => .ok 0, 1⟩ :
      GetDataForEval (ZMod 101)).row_size) ∧
    ((Expression.Challenge 0 : Expression (ZMod 101)).directEval
      ⟨[4, 9], [], fun _ _ => .ok 0, 1⟩ 0 = .ok 4) ∧
    ((Expression.Challenge 1 : Expression (ZMod 101)).directEval
      ⟨[4, 9], [], fun _ _ => .ok 0, 1⟩ 0 = .ok 9) ∧
    ((GraphEvaluator.new (Expression.Sum (.Challenge 0)
        (.Challenge 1) : Expression (ZMod 101))).evaluate
      ⟨[4, 9], [], fun _ _ => .ok 0, 1⟩ 0 = some (.ok (4 + 9))) ∧
    ((GraphEvaluator.new (Expression.Sum (.Challenge 1)
        (.Challenge 0) : Expression (ZMod 101))).evaluate
      ⟨[4, 9], [], fun _ _ => .ok 0, 1⟩ 0 = some (.ok (4 + 9))) ∧
    (((GraphEvaluator.empty (F := ZMod 101)).add_expression
        (.Sum (.Challenge 0) (.Challenge 1))).1.add_expression
        (.Sum (.Challenge 1) (.Challenge 0)) =
      (((GraphEvaluator.empty (F := ZMod 101)).add_expression
          (.Sum (.Challenge 0) (.Challenge 1))).1,
        ((GraphEvaluator.empty (F := ZMod 101)).add_expression
          (.Sum (.Challenge 0) (.Challenge 1))).2)) :=
  ⟨by decide, by decide, by decide,
    ((spec_c3 ⟨[4, 9], [], fun _ _ => .ok 0, 1⟩ 0 (.Challenge 0) (.Challenge 1) 4 9
      GraphEvaluator.empty GraphEvaluator.empty (.Constant 0)).1
      (by decide) (by decide) (by decide)).1,
    ((spec_c3 ⟨[4, 9], [], fun _ _ => .ok 0, 1⟩ 0 (.Challenge 0) (.Challenge 1) 4 9
      GraphEvaluator.empty GraphEvaluator.empty (.Constant 0)).1
      (by decide) (by decide) (by decide)).2.1,
    (spec_c3 ⟨[4, 9], [], fun _ _ => .ok 0, 1⟩ 0 (.Challenge 0) (.Challenge 1) 4 9
      GraphEvaluator.empty
      ((GraphEvaluator.empty (F := ZMod 101)).add_expression
        (.Sum (.Challenge 0) (.Challenge 1))).1
      ((GraphEvaluator.empty (F := ZMod 101)).add_expression
        (.Sum (.Challenge 0) (.Challenge 1))).2).2.1 rfl rfl rfl⟩
